import Mathlib

/-!
Shallow embedding of the audio-segment ordering and assembly engine of the
hatebu-audio repository.

The embedded code:
* `src/src/models/PlaylistModel.ts`  — playlist item store (add / remove / reorder);
* `src/src/models/AudioFileModel.ts` — segment store reads (`findById`, `findAll`);
* `src/src/models/NarrationModel.ts` (second class in the file,
  `MergedAudioFileModel`) — the assembly ledger, with its JSON-serialized
  `source_files` column;
* `src/unnamed/part_017` (`DefaultAudioMergeService`) — `mergeAudioFiles`,
  `mergeAndSaveAudioFiles`, `mergePlaylist`, `mergeUnprocessedAudioFiles`;
* `src/src/services/audio-merge/AudioMergeService.ts` — the variant service with
  `mergeAudioFilesWithIntro` / `mergeUnprocessedAudioFilesWithIntro`;
* `src/unnamed/part_018` (`DefaultPlaylistService.addAudioFileToPlaylist`).

Conventions of the embedding:
* SQLite tables are Lean lists of records, kept in insertion (rowid) order.
  `AUTOINCREMENT` ids are `Nat`s handed out by a `nextId` counter carried in the
  state.  `INTEGER` position columns are `Int` (SQLite integers are signed).
* `created_at` / `generated_at` timestamp columns equal insertion order, so the
  SQL `ORDER BY generated_at DESC` / `ORDER BY created_at DESC` used by the two
  `findAll` functions is realized as `List.reverse`, and `LIMIT ? OFFSET ?` as
  `List.drop` / `List.take`.
* The filesystem is a list of existing paths plus a boolean oracle for the
  outcome of the external ffmpeg run; `async` functions that mutate state are
  functions `State → result × State`; a thrown JS `Error` caught by the service
  is an `Except.error` carrying the message string.
* JS `Set<number>` membership is membership in the flattened list of inserted
  elements (same extension, no dedup needed for membership tests).
-/

deriving instance DecidableEq for Except

/-- JS truthiness of `x || 0` applied to a nullable SQL aggregate: `null` and
`0` give `0`, any other integer is kept. -/
def jsOrZero : Option Int → Int
  | none => 0
  | some m => if m = 0 then 0 else m

/-- SQL `MAX(...)` over a list of integers: `NULL` (`none`) on the empty set. -/
def sqlMax : List Int → Option Int
  | [] => none
  | x :: xs =>
    match sqlMax xs with
    | none => some x
    | some m => some (max x m)

/-- `ProcessStatus` from `src/src/types/index.ts`. -/
inductive ProcessStatus where
  | success
  | error
  | skipped
deriving DecidableEq

/-- A row of the `audio_files` table (a narration segment). -/
structure AudioFile where
  id : Nat
  bookmark_id : Nat
  file_path : String
deriving DecidableEq

/-- A row of the `merged_audio_files` table as the service sees it after the
model layer has deserialized the `source_files` JSON column. -/
structure MergedAudioFile where
  id : Nat
  name : String
  file_path : String
  source_files : List Nat
deriving DecidableEq

/-- A row of the `playlists` table. -/
structure Playlist where
  id : Nat
  name : String
deriving DecidableEq

/-- A row of the `playlist_items` table. -/
structure PlaylistItem where
  id : Nat
  playlist_id : Nat
  audio_file_id : Nat
  position : Int
deriving DecidableEq

/-- The SQLite database: one list per table, in insertion order, plus the
`AUTOINCREMENT` counters used for `last_insert_rowid()`. -/
structure DB where
  audioFiles : List AudioFile
  mergedFiles : List MergedAudioFile
  playlists : List Playlist
  playlistItems : List PlaylistItem
  nextItemId : Nat
  nextMergedId : Nat
deriving DecidableEq

/-- `AudioFileModel.findById`: `SELECT * FROM audio_files WHERE id = ?`. -/
def AudioFileModel.findById (db : DB) (id : Nat) : Option AudioFile :=
  db.audioFiles.find? (fun r => r.id == id)

/-- `AudioFileModel.findAll limit offset`:
`SELECT * FROM audio_files ORDER BY generated_at DESC LIMIT ? OFFSET ?`.
Rows are stored in insertion order and `generated_at` is the insertion
timestamp, so descending `generated_at` order is the reversed list. -/
def AudioFileModel.findAll (db : DB) (limit offset : Nat) : List AudioFile :=
  (db.audioFiles.reverse.drop offset).take limit

/-- `MergedAudioFileModel.findAll limit offset`:
`SELECT * FROM merged_audio_files ORDER BY created_at DESC LIMIT ? OFFSET ?`. -/
def MergedAudioFileModel.findAll (db : DB) (limit offset : Nat) : List MergedAudioFile :=
  (db.mergedFiles.reverse.drop offset).take limit

/-- `MergedAudioFileModel.findById`. -/
def MergedAudioFileModel.findById (db : DB) (id : Nat) : Option MergedAudioFile :=
  db.mergedFiles.find? (fun r => r.id == id)

/-- `MergedAudioFileModel.create`: INSERT of name, file path and source id list
(the JSON serialization of `source_files` is studied separately by the raw
ledger model below); returns `last_insert_rowid()`. -/
def MergedAudioFileModel.create (db : DB) (name file_path : String)
    (source_files : List Nat) : Nat × DB :=
  (db.nextMergedId,
    { db with
      mergedFiles := db.mergedFiles ++
        [{ id := db.nextMergedId, name := name, file_path := file_path,
           source_files := source_files }]
      nextMergedId := db.nextMergedId + 1 })

/-- `PlaylistModel.findById`: `SELECT * FROM playlists WHERE id = ?`. -/
def PlaylistModel.findById (db : DB) (id : Nat) : Option Playlist :=
  db.playlists.find? (fun r => r.id == id)

/-- The rows of `playlist_items` belonging to one playlist (in rowid order). -/
def PlaylistModel.itemsOf (db : DB) (pid : Nat) : List PlaylistItem :=
  db.playlistItems.filter (fun r => r.playlist_id == pid)

/-- `SELECT MAX(position) as max_position FROM playlist_items WHERE playlist_id = ?`
followed by the JS `maxPositionResult?.max_position || 0`. -/
def PlaylistModel.maxPosition (db : DB) (pid : Nat) : Int :=
  jsOrZero (sqlMax ((PlaylistModel.itemsOf db pid).map (fun r => r.position)))

/-- `PlaylistModel.addPlaylistItem`: computes `MAX(position)+1` and inserts the
new row (the `position` supplied by the caller is ignored by the SQL, which
recomputes it); returns `last_insert_rowid()`. -/
def PlaylistModel.addPlaylistItem (db : DB) (pid afid : Nat) : Nat × DB :=
  let pos := PlaylistModel.maxPosition db pid + 1
  (db.nextItemId,
    { db with
      playlistItems := db.playlistItems ++
        [{ id := db.nextItemId, playlist_id := pid, audio_file_id := afid,
           position := pos }]
      nextItemId := db.nextItemId + 1 })

/-- `PlaylistModel.removeItem`: look the row up by id; if absent return
`false`; otherwise, in one transaction, `DELETE` the row and decrement the
position of every row of the same playlist with a greater position. -/
def PlaylistModel.removeItem (db : DB) (id : Nat) : Bool × DB :=
  match db.playlistItems.find? (fun r => r.id == id) with
  | none => (false, db)
  | some item =>
    let afterDelete := db.playlistItems.filter (fun r => !(r.id == id))
    let afterShift := afterDelete.map (fun r =>
      if r.playlist_id == item.playlist_id && r.position > item.position then
        { r with position := r.position - 1 }
      else r)
    (true, { db with playlistItems := afterShift })

/-- `PlaylistModel.findPlaylistItem`:
`SELECT * FROM playlist_items WHERE playlist_id = ? AND audio_file_id = ?`. -/
def PlaylistModel.findPlaylistItem (db : DB) (pid afid : Nat) : Option PlaylistItem :=
  db.playlistItems.find? (fun r => r.playlist_id == pid && r.audio_file_id == afid)

/-- `PlaylistModel.removePlaylistItem`: look the membership row up by
(playlist, audio file); if absent return `false`; otherwise delete it by id and
decrement the positions greater than its position in the same playlist. -/
def PlaylistModel.removePlaylistItem (db : DB) (pid afid : Nat) : Bool × DB :=
  match PlaylistModel.findPlaylistItem db pid afid with
  | none => (false, db)
  | some item =>
    let afterDelete := db.playlistItems.filter (fun r => !(r.id == item.id))
    let afterShift := afterDelete.map (fun r =>
      if r.playlist_id == pid && r.position > item.position then
        { r with position := r.position - 1 }
      else r)
    (true, { db with playlistItems := afterShift })

/-- `PlaylistModel.updatePlaylistItemPosition`: clamp the requested position to
`[1, MAX(position)]`, no-op when it equals the current position, otherwise
shift the in-between rows of the same playlist by one and set the moved row. -/
def PlaylistModel.updatePlaylistItemPosition (db : DB) (id : Nat)
    (newPosition : Int) : Bool × DB :=
  match db.playlistItems.find? (fun r => r.id == id) with
  | none => (false, db)
  | some item =>
    let maxPos := PlaylistModel.maxPosition db item.playlist_id
    let q : Int :=
      if newPosition < 1 then 1
      else if newPosition > maxPos then maxPos
      else newPosition
    if q == item.position then (true, db)
    else
      let shifted := db.playlistItems.map (fun r =>
        if q < item.position then
          if r.playlist_id == item.playlist_id && q ≤ r.position &&
              r.position < item.position then
            { r with position := r.position + 1 }
          else r
        else
          if r.playlist_id == item.playlist_id && item.position < r.position &&
              r.position ≤ q then
            { r with position := r.position - 1 }
          else r)
      let placed := shifted.map (fun r =>
        if r.id == id then { r with position := q } else r)
      (true, { db with playlistItems := placed })

/-- `SELECT audio_file_id FROM playlist_items WHERE playlist_id = ? ORDER BY position`
(`PlaylistModel.getAudioFileIds`); `sortByPosition` realizes the `ORDER BY`. -/
def insertByPosition (r : PlaylistItem) : List PlaylistItem → List PlaylistItem
  | [] => [r]
  | s :: ss =>
    if r.position ≤ s.position then r :: s :: ss
    else s :: insertByPosition r ss

def sortByPosition : List PlaylistItem → List PlaylistItem
  | [] => []
  | r :: rest => insertByPosition r (sortByPosition rest)

/-- `PlaylistModel.getAudioFileIds`. -/
def PlaylistModel.getAudioFileIds (db : DB) (pid : Nat) : List Nat :=
  (sortByPosition (PlaylistModel.itemsOf db pid)).map (fun r => r.audio_file_id)

/-- Filesystem plus the outcome of the external ffmpeg invocation: `files` is
the set of existing paths, `ffmpegOk` tells whether the transcoder run
succeeds (an external oracle; the TS code only observes success/failure). -/
structure Fs where
  files : List String
  ffmpegOk : Bool
deriving DecidableEq

/-- The full mutable world of the merge service. -/
structure World where
  db : DB
  fs : Fs
deriving DecidableEq

/-- One element of the output timeline of the concatenation filter graph. -/
inductive TimelinePiece where
  | sound (file : String)
  | silence (dur : ℚ)
deriving DecidableEq

/-- The `filter_complex` built by `mergeAudioFiles` for `n = inputs.length`
inputs: stream `i` is input `i` padded with `apad=pad_dur=s` for `i < n-1` and
`apad=pad_dur=0` for the last, and the `concat` node consumes the streams in
index order.  Represented structurally as the list of (input, pad duration)
pairs in concatenation order. -/
def filterGraph (inputs : List String) (s : ℚ) : List (String × ℚ) :=
  (List.range inputs.length).map (fun i =>
    (inputs.getD i "", if i < inputs.length - 1 then s else 0))

/-- Audio semantics of one padded stream: `apad=pad_dur=d` appends `d` seconds
of silence, and appending zero seconds appends nothing. -/
def renderPad (p : String × ℚ) : List TimelinePiece :=
  if p.2 = 0 then [.sound p.1] else [.sound p.1, .silence p.2]

/-- Output timeline of `mergeAudioFiles` once the existence checks have
passed: with more than one input the filter graph is applied, otherwise the
single input is transcoded as-is. -/
def mergeTimeline (inputs : List String) (s : ℚ) : List TimelinePiece :=
  if 1 < inputs.length then (filterGraph inputs s).flatMap renderPad
  else inputs.map .sound

/-- Effective input list of `mergeAudioFilesWithIntro`
(`const allFiles = [introFile, ...inputFiles, outroFile]`). -/
def allFilesWithIntro (introFile : String) (inputs : List String)
    (outroFile : String) : List String :=
  introFile :: inputs ++ [outroFile]

/-- Output timeline of `mergeAudioFilesWithIntro`, which delegates to
`mergeAudioFiles` on the effective list. -/
def mergeTimelineWithIntro (introFile : String) (inputs : List String)
    (outroFile : String) (s : ℚ) : List TimelinePiece :=
  mergeTimeline (allFilesWithIntro introFile inputs outroFile) s

/-- Effect of `mergeAudioFiles inputs outputFile`: each input must exist
(first missing one raises `入力ファイルが見つかりません`), then ffmpeg runs; on
success the output path exists afterwards.  The error string is the message of
the `Error` the returned promise rejects with. -/
def mergeAudioFilesRun (fs : Fs) (inputs : List String) (outputFile : String) :
    Except String Fs :=
  match inputs.find? (fun f => !(fs.files.contains f)) with
  | some f =>
    .error ("音声ファイルの結合に失敗しました: 入力ファイルが見つかりません: " ++ f)
  | none =>
    if fs.ffmpegOk then .ok { fs with files := fs.files ++ [outputFile] }
    else .error "音声ファイルの結合に失敗しました: ffmpeg"

/-- Whether an `Except` is a success. -/
def exceptOk : Except String Fs → Bool
  | .ok _ => true
  | .error _ => false

/-- `ProcessResult<MergedAudioFile>` from `src/src/types/index.ts`. -/
structure ProcessResult where
  status : ProcessStatus
  message : String
  data : Option MergedAudioFile
deriving DecidableEq

/-- The `for (const id of audioFileIds)` resolution loop of
`mergeAndSaveAudioFiles`: returns the resolved rows in the given order, or the
first id whose `findById` is `null`. -/
def resolveAudioFiles (db : DB) : List Nat → Except Nat (List AudioFile)
  | [] => .ok []
  | id :: rest =>
    match AudioFileModel.findById db id with
    | none => .error id
    | some f =>
      match resolveAudioFiles db rest with
      | .error i => .error i
      | .ok fs => .ok (f :: fs)

/-- `AUDIO_OUTPUT_DIR` fallback used by both service constructors. -/
def audioOutputDir : String := "./data/audio"

/-- JS `name.replace(/[^\w\s-]/g, "_")` (ASCII reading of `\w`/`\s`). -/
def sanitizeName (name : String) : String :=
  String.mk (name.data.map (fun c =>
    if c.isAlphanum || c = '_' || c = ' ' || c = '\t' || c = '\n' || c = '-'
    then c else '_'))

/-- Output path derived by `mergeAndSaveAudioFiles` from the display name and
the ISO timestamp `now` (already `:`/`.`-sanitized by the caller's regex). -/
def outputPathFor (name now : String) : String :=
  audioOutputDir ++ "/" ++ sanitizeName name ++ "_" ++ now ++ ".mp3"

/-- `DefaultAudioMergeService.mergeAndSaveAudioFiles` (part_017 lines 153-211):
reject an empty id list; resolve every id (first missing id aborts); derive the
output path; run the concatenation; only on its success insert the ledger row
recording `audioFileIds` as `source_files`. -/
def mergeAndSaveAudioFiles (w : World) (now : String) (audioFileIds : List Nat)
    (name : String) : ProcessResult × World :=
  if audioFileIds.isEmpty then
    ({ status := .error, message := "結合する音声ファイルが指定されていません。",
       data := none }, w)
  else
    match resolveAudioFiles w.db audioFileIds with
    | .error id =>
      ({ status := .error,
         message := "音声ファイルが見つかりません: ID " ++ toString id,
         data := none }, w)
    | .ok files =>
      let inputFiles := files.map (fun f => f.file_path)
      let outputPath := outputPathFor name now
      match mergeAudioFilesRun w.fs inputFiles outputPath with
      | .error msg =>
        ({ status := .error,
           message := "音声ファイルの結合と保存に失敗しました: " ++ msg,
           data := none }, w)
      | .ok fs' =>
        let created := MergedAudioFileModel.create w.db name outputPath audioFileIds
        let row : MergedAudioFile :=
          { id := created.1, name := name, file_path := outputPath,
            source_files := audioFileIds }
        ({ status := .success,
           message := "音声ファイルを結合して保存しました: " ++ name,
           data := some row }, { db := created.2, fs := fs' })

/-- `DefaultAudioMergeService.mergePlaylist` (part_017 lines 219-254). -/
def mergePlaylist (w : World) (now : String) (playlistId : Nat)
    (name : Option String) : ProcessResult × World :=
  match PlaylistModel.findById w.db playlistId with
  | none =>
    ({ status := .error,
       message := "プレイリストが見つかりません: ID " ++ toString playlistId,
       data := none }, w)
  | some playlist =>
    let audioFileIds := PlaylistModel.getAudioFileIds w.db playlistId
    if audioFileIds.isEmpty then
      ({ status := .skipped,
         message := "プレイリストに音声ファイルが含まれていません: " ++ playlist.name,
         data := none }, w)
    else
      mergeAndSaveAudioFiles w now audioFileIds
        (name.getD ("プレイリスト_" ++ playlist.name))

/-- The unprocessed-id computation shared by `mergeUnprocessedAudioFiles`
(`limit = 1000`) and `mergeUnprocessedAudioFilesWithIntro` (`limit = 100000`):
collect every id mentioned by any fetched ledger row into a `Set`, then keep
the fetched audio files whose id is not in the set, in fetched order. -/
def unprocessedAudioFileIds (db : DB) (limit : Nat) : List Nat :=
  let mergedAudioFileIds :=
    (MergedAudioFileModel.findAll db limit 0).flatMap (fun m => m.source_files)
  ((AudioFileModel.findAll db limit 0).filter
    (fun f => !(mergedAudioFileIds.contains f.id))).map (fun f => f.id)

/-- `DefaultAudioMergeService.mergeUnprocessedAudioFiles` (part_017 lines
261-305): resolve the unprocessed set with `findAll(1000, 0)`, skip when it is
empty, otherwise delegate to `mergeAndSaveAudioFiles`.  `today` is the
`toISOString().slice(0, 10)` date used for the generated name. -/
def mergeUnprocessedAudioFiles (w : World) (now today : String)
    (name : Option String) : ProcessResult × World :=
  let unprocessed := unprocessedAudioFileIds w.db 1000
  if unprocessed.isEmpty then
    ({ status := .skipped,
       message := "未処理の音声ファイルが見つかりませんでした。",
       data := none }, w)
  else
    mergeAndSaveAudioFiles w now unprocessed (name.getD ("自動生成_" ++ today))

/-- Insertion sort of audio files ascending by id, realizing the
`audioFiles.sort((a, b) => a.id - b.id)` of the with-intro variant. -/
def insertById (f : AudioFile) : List AudioFile → List AudioFile
  | [] => [f]
  | g :: gs => if f.id ≤ g.id then f :: g :: gs else g :: insertById f gs

/-- Insertion sort driver for `insertById`. -/
def sortById : List AudioFile → List AudioFile
  | [] => []
  | f :: fs => insertById f (sortById fs)

/-- `DefaultAudioMergeService.mergeUnprocessedAudioFilesWithIntro`
(`src/src/services/audio-merge/AudioMergeService.ts` lines 126-222): require
the cached intro/outro files to exist, resolve the unprocessed set with
`findAll(100000, 0)`, skip when empty, resolve each id, concatenate with the
intro first and the outro last (inputs sorted ascending by id), then insert
the ledger row recording the *unsorted* unprocessed id list. -/
def mergeUnprocessedAudioFilesWithIntro (w : World) (now today : String)
    (name : Option String) : ProcessResult × World :=
  let introFilePath := audioOutputDir ++ "/radio_intro.mp3"
  let outroFilePath := audioOutputDir ++ "/radio_outro.mp3"
  if !(w.fs.files.contains introFilePath) || !(w.fs.files.contains outroFilePath) then
    ({ status := .error,
       message := "挨拶または結びの音声ファイルが見つかりません。",
       data := none }, w)
  else
    let unprocessed := unprocessedAudioFileIds w.db 100000
    if unprocessed.isEmpty then
      ({ status := .skipped,
         message := "未処理の音声ファイルが見つかりませんでした。",
         data := none }, w)
    else
      match resolveAudioFiles w.db unprocessed with
      | .error id =>
        ({ status := .error,
           message := "音声ファイルが見つかりません: ID " ++ toString id,
           data := none }, w)
      | .ok files =>
        let inputFiles := (sortById files).map (fun f => f.file_path)
        let mergedName := name.getD ("自動生成_" ++ today)
        let outputPath := outputPathFor mergedName now
        match mergeAudioFilesRun w.fs
            (allFilesWithIntro introFilePath inputFiles outroFilePath) outputPath with
        | .error msg =>
          ({ status := .error,
             message := "未処理の音声ファイルの結合に失敗しました: " ++ msg,
             data := none }, w)
        | .ok fs' =>
          let created := MergedAudioFileModel.create w.db mergedName outputPath unprocessed
          let row : MergedAudioFile :=
            { id := created.1, name := mergedName, file_path := outputPath,
              source_files := unprocessed }
          ({ status := .success,
             message := "音声ファイルを結合して保存しました（挨拶と結びを追加）: " ++ mergedName,
             data := some row }, { db := created.2, fs := fs' })

/-- Outcome statuses of `DefaultPlaylistService.addAudioFileToPlaylist`
(part_018): validate playlist and audio file, skip when the membership already
exists, otherwise insert via `PlaylistModel.addPlaylistItem`. -/
def addAudioFileToPlaylist (db : DB) (playlistId audioFileId : Nat) :
    ProcessStatus × DB :=
  match PlaylistModel.findById db playlistId with
  | none => (.error, db)
  | some _ =>
    match AudioFileModel.findById db audioFileId with
    | none => (.error, db)
    | some _ =>
      match PlaylistModel.findPlaylistItem db playlistId audioFileId with
      | some _ => (.skipped, db)
      | none =>
        let added := PlaylistModel.addPlaylistItem db playlistId audioFileId
        (.success, added.2)

/-- Decimal digit to its character, as JS number-to-string rendering does. -/
def digitChar (d : Nat) : Char := Char.ofNat (48 + d)

/-- Character back to its decimal digit value. -/
def charToDigit (c : Char) : Nat := c.toNat - 48

/-- Big-endian decimal digits of `n` (empty for `0`); the first argument is
structural fuel, always called with `n ≤ fuel`. -/
def natToCharsAux : Nat → Nat → List Char
  | 0, _ => []
  | fuel + 1, n =>
    if n = 0 then [] else natToCharsAux fuel (n / 10) ++ [digitChar (n % 10)]

/-- JS rendering of a non-negative integer id, as `JSON.stringify` emits it. -/
def natToChars (n : Nat) : List Char :=
  if n = 0 then ['0'] else natToCharsAux n n

/-- Decimal value of a digit string (standard positional reading). -/
def digitsValue : List Char → Nat
  | [] => 0
  | c :: rest => charToDigit c * 10 ^ rest.length + digitsValue rest

/-- JSON number parsing restricted to the non-negative integers this column
holds: every character must be a digit and the list must be non-empty. -/
def parseNatChars (cs : List Char) : Option Nat :=
  if cs.isEmpty then none
  else if cs.all (fun c => c.isDigit) then some (digitsValue cs) else none

/-- Comma-join of the rendered elements, as `JSON.stringify` lays out an
array's elements. -/
def joinComma : List (List Char) → List Char
  | [] => []
  | [c] => c
  | c :: cs => c ++ ',' :: joinComma cs

/-- Split at top-level commas, the inverse direction used by `JSON.parse` for
this flat grammar. -/
def splitComma : List Char → List (List Char)
  | [] => [[]]
  | c :: rest =>
    if c = ',' then [] :: splitComma rest
    else
      match splitComma rest with
      | [] => [[c]]
      | g :: gs => (c :: g) :: gs

/-- `JSON.stringify` of a list of non-negative integer ids. -/
def natsToJson (l : List Nat) : List Char :=
  '[' :: (joinComma (l.map natToChars) ++ [']'])

/-- Element-wise parse of the split chunks. -/
def parseNatList : List (List Char) → Option (List Nat)
  | [] => some []
  | c :: cs =>
    match parseNatChars c, parseNatList cs with
    | some n, some l => some (n :: l)
    | _, _ => none

/-- `JSON.parse` restricted to the arrays of non-negative integers stored in
the `source_files` column. -/
def jsonToNats : List Char → Option (List Nat)
  | '[' :: rest =>
    match rest.getLast? with
    | some ']' =>
      let mid := rest.dropLast
      if mid.isEmpty then some [] else parseNatList (splitComma mid)
    | _ => none
  | _ => none

/-- A `merged_audio_files` row at the SQL level: the `source_files` TEXT
column holds the JSON serialization. -/
structure MergedRowRaw where
  id : Nat
  name : String
  file_path : String
  source_files : List Char
deriving DecidableEq

/-- The `merged_audio_files` table at the SQL level. -/
structure LedgerStore where
  rows : List MergedRowRaw
  nextId : Nat
deriving DecidableEq

/-- `MergedAudioFileModel.create` at the SQL level:
`JSON.stringify(mergedAudioFile.source_files)` goes into the TEXT column, and
`last_insert_rowid()` is returned. -/
def MergedAudioFileModel.createRaw (st : LedgerStore) (name file_path : String)
    (source_files : List Nat) : Nat × LedgerStore :=
  (st.nextId,
    { rows := st.rows ++
        [{ id := st.nextId, name := name, file_path := file_path,
           source_files := natsToJson source_files }],
      nextId := st.nextId + 1 })

/-- `MergedAudioFileModel.findById` at the SQL level: fetch the row, then
`JSON.parse` the `source_files` string back into a list (a parse failure is
the `JSON.parse` exception, i.e. no value). -/
def MergedAudioFileModel.findByIdRaw (st : LedgerStore) (id : Nat) :
    Option MergedAudioFile :=
  match st.rows.find? (fun r => r.id == id) with
  | none => none
  | some r =>
    match jsonToNats r.source_files with
    | none => none
    | some l =>
      some { id := r.id, name := r.name, file_path := r.file_path,
             source_files := l }

/-- The ten digit characters decode back to their digit values. -/
theorem charToDigit_digitChar : ∀ d, d < 10 → charToDigit (digitChar d) = d := by
  decide

/-- The ten digit characters satisfy `Char.isDigit`. -/
theorem digitChar_isDigit : ∀ d, d < 10 → (digitChar d).isDigit = true := by
  decide

/-- No digit character is the array separator. -/
theorem digitChar_ne_comma : ∀ d, d < 10 → digitChar d ≠ ',' := by
  decide

/-- Appending one digit multiplies the value by ten and adds the digit. -/
theorem digitsValue_append_singleton (xs : List Char) (c : Char) :
    digitsValue (xs ++ [c]) = 10 * digitsValue xs + charToDigit c := by
  induction xs with
  | nil => simp [digitsValue]
  | cons x xs ih =>
    simp only [List.cons_append, digitsValue, List.append_eq, ih,
      List.length_append, List.length_cons, List.length_nil]
    ring

/-- The fuelled digit renderer emits digits only and evaluates back to its
input, for any sufficient fuel. -/
theorem natToCharsAux_spec :
    ∀ fuel n, n ≤ fuel →
      (natToCharsAux fuel n).all (fun c => c.isDigit) = true ∧
      digitsValue (natToCharsAux fuel n) = n := by
  intro fuel
  induction fuel with
  | zero =>
    intro n hn
    interval_cases n
    simp [natToCharsAux, digitsValue]
  | succ fuel ih =>
    intro n hn
    by_cases h0 : n = 0
    · subst h0; simp [natToCharsAux, digitsValue]
    · have hdiv : n / 10 ≤ fuel := by
        have : n / 10 < n := Nat.div_lt_self (Nat.pos_of_ne_zero h0) (by norm_num)
        omega
      obtain ⟨ihall, ihval⟩ := ih (n / 10) hdiv
      have hmod : n % 10 < 10 := Nat.mod_lt n (by norm_num)
      constructor
      · simp only [natToCharsAux, if_neg h0, List.all_append, ihall,
          List.all_cons, List.all_nil, Bool.and_true, Bool.true_and]
        exact digitChar_isDigit _ hmod
      · simp only [natToCharsAux, if_neg h0, digitsValue_append_singleton,
          ihval, charToDigit_digitChar _ hmod]
        omega

/-- The rendered id is a non-empty digit string parsing back to the id. -/
theorem parseNatChars_natToChars (n : Nat) :
    natToChars n ≠ [] ∧ parseNatChars (natToChars n) = some n := by
  by_cases h0 : n = 0
  · subst h0; refine ⟨by simp [natToChars], ?_⟩; decide
  · obtain ⟨hall, hval⟩ := natToCharsAux_spec n n le_rfl
    have hne : natToChars n ≠ [] := by
      simp only [natToChars, if_neg h0]
      obtain ⟨k, rfl⟩ : ∃ k, n = k + 1 := ⟨n - 1, by omega⟩
      simp [natToCharsAux, h0]
    refine ⟨hne, ?_⟩
    simp only [natToChars, if_neg h0] at hne ⊢
    simp only [parseNatChars, List.isEmpty_iff, hne, if_false, hall, if_true, hval]

/-- Every character of the rendered id is a digit, hence not a comma. -/
theorem natToChars_no_comma (n : Nat) : ',' ∉ natToChars n := by
  intro hmem
  by_cases h0 : n = 0
  · subst h0; simp [natToChars] at hmem
  · obtain ⟨hall, -⟩ := natToCharsAux_spec n n le_rfl
    simp only [natToChars, if_neg h0] at hmem
    have := (List.all_eq_true.mp hall) ',' hmem
    simp [Char.isDigit] at this

/-- `splitComma` never returns the empty list of chunks. -/
theorem splitComma_ne_nil (cs : List Char) : splitComma cs ≠ [] := by
  match cs with
  | [] => simp [splitComma]
  | c :: rest =>
    by_cases h : c = ','
    · simp [splitComma, h]
    · simp only [splitComma, if_neg h]
      match splitComma rest with
      | [] => simp
      | g :: gs => simp

/-- A comma-free string is one chunk. -/
theorem splitComma_no_comma (chunk : List Char) (h : ',' ∉ chunk) :
    splitComma chunk = [chunk] := by
  induction chunk with
  | nil => rfl
  | cons c rest ih =>
    have hc : c ≠ ',' := fun hc => h (hc ▸ List.mem_cons_self c rest)
    have hr : ',' ∉ rest := fun hr => h (List.mem_cons_of_mem c hr)
    simp only [splitComma, if_neg hc, ih hr]

/-- Splitting a comma-free chunk followed by a comma peels off the chunk. -/
theorem splitComma_chunk_comma (chunk rest : List Char) (h : ',' ∉ chunk) :
    splitComma (chunk ++ ',' :: rest) = chunk :: splitComma rest := by
  induction chunk with
  | nil => simp [splitComma]
  | cons c tail ih =>
    have hc : c ≠ ',' := fun hc => h (hc ▸ List.mem_cons_self c tail)
    have ht : ',' ∉ tail := fun hr => h (List.mem_cons_of_mem c hr)
    simp only [List.cons_append, splitComma, if_neg hc, List.append_eq, ih ht]

/-- `splitComma` undoes `joinComma` on non-empty lists of comma-free chunks. -/
theorem splitComma_joinComma :
    ∀ chunks : List (List Char), chunks ≠ [] →
      (∀ ch ∈ chunks, ',' ∉ ch) →
      splitComma (joinComma chunks) = chunks := by
  intro chunks
  induction chunks with
  | nil => intro h; exact absurd rfl h
  | cons ch rest ih =>
    intro _ hfree
    match rest with
    | [] =>
      simp only [joinComma]
      exact splitComma_no_comma ch (hfree ch (by simp))
    | ch2 :: rest2 =>
      have : joinComma (ch :: ch2 :: rest2) = ch ++ ',' :: joinComma (ch2 :: rest2) := rfl
      rw [this, splitComma_chunk_comma ch _ (hfree ch (by simp)),
        ih (by simp) (fun c hc => hfree c (by simp [hc]))]

/-- Parsing the rendered chunks recovers the id list. -/
theorem parseNatList_map_natToChars (l : List Nat) :
    parseNatList (l.map natToChars) = some l := by
  induction l with
  | nil => rfl
  | cons n rest ih =>
    obtain ⟨-, hparse⟩ := parseNatChars_natToChars n
    simp only [List.map_cons, parseNatList, hparse, ih]

/-- A join headed by a non-empty chunk is non-empty. -/
theorem joinComma_cons_ne_nil (a : List Char) (l : List (List Char))
    (ha : a ≠ []) : joinComma (a :: l) ≠ [] := by
  match l with
  | [] => simpa [joinComma] using ha
  | b :: t =>
    show a ++ ',' :: joinComma (b :: t) ≠ []
    simp

/-- `JSON.parse` is a left inverse of `JSON.stringify` on lists of
non-negative integer ids. -/
theorem jsonToNats_natsToJson (l : List Nat) : jsonToNats (natsToJson l) = some l := by
  have hlast : (joinComma (l.map natToChars) ++ [']']).getLast? = some ']' := by
    simp
  have hdrop : (joinComma (l.map natToChars) ++ [']']).dropLast =
      joinComma (l.map natToChars) := by
    simp
  match l with
  | [] => decide
  | n :: rest =>
    have hne : joinComma ((n :: rest).map natToChars) ≠ [] := by
      simp only [List.map_cons]
      exact joinComma_cons_ne_nil _ _ (parseNatChars_natToChars n).1
    have hsplit : splitComma (joinComma ((n :: rest).map natToChars)) =
        (n :: rest).map natToChars := by
      refine splitComma_joinComma _ (by simp) ?_
      intro ch hch
      obtain ⟨m, -, rfl⟩ := List.mem_map.mp hch
      exact natToChars_no_comma m
    simp only [natsToJson, jsonToNats, hlast, hdrop, List.isEmpty_iff, hne,
      if_false, hsplit, parseNatList_map_natToChars]

/-- C10: creating a ledger row serializes `source_files` to the JSON TEXT
column and `findById` on the returned id deserializes it back to the original
id list, element for element and in order (the row id being fresh). -/
theorem mergedAudioFile_source_files_roundtrip (st : LedgerStore)
    (name fp : String) (l : List Nat)
    (hfresh : ∀ r ∈ st.rows, r.id ≠ st.nextId) :
    MergedAudioFileModel.findByIdRaw (MergedAudioFileModel.createRaw st name fp l).2
        (MergedAudioFileModel.createRaw st name fp l).1 =
      some { id := st.nextId, name := name, file_path := fp, source_files := l } ∧
    jsonToNats (natsToJson l) = some l := by
  refine ⟨?_, jsonToNats_natsToJson l⟩
  have hnone : st.rows.find? (fun r => r.id == st.nextId) = none := by
    rw [List.find?_eq_none]
    intro r hr
    simpa using hfresh r hr
  simp only [MergedAudioFileModel.createRaw, MergedAudioFileModel.findByIdRaw,
    List.find?_append, hnone, Option.none_or, List.find?_cons,
    beq_self_eq_true, jsonToNats_natsToJson]

/-- Witness for C10 at a concrete store and id list. -/
theorem mergedAudioFile_source_files_roundtrip_witness :
    (∀ r ∈ ([] : List MergedRowRaw), r.id ≠ 1) ∧
    (MergedAudioFileModel.findByIdRaw
        (MergedAudioFileModel.createRaw ⟨[], 1⟩ "ep1" "./data/audio/out.mp3" [5, 7, 9]).2
        (MergedAudioFileModel.createRaw ⟨[], 1⟩ "ep1" "./data/audio/out.mp3" [5, 7, 9]).1 =
      some { id := 1, name := "ep1", file_path := "./data/audio/out.mp3",
             source_files := [5, 7, 9] } ∧
     jsonToNats (natsToJson [5, 7, 9]) = some [5, 7, 9]) :=
  ⟨by simp,
   mergedAudioFile_source_files_roundtrip ⟨[], 1⟩ "ep1" "./data/audio/out.mp3"
     [5, 7, 9] (by simp)⟩

/-- The filter graph on a single input is that input padded by zero. -/
theorem filterGraph_singleton (x : String) (s : ℚ) :
    filterGraph [x] s = [(x, 0)] := rfl

/-- The filter graph on two or more inputs pads its head with the configured
silence and recurses. -/
theorem filterGraph_cons (x : String) (xs : List String) (s : ℚ) (h : xs ≠ []) :
    filterGraph (x :: xs) s = (x, s) :: filterGraph xs s := by
  have hlen : 0 < xs.length := List.length_pos.mpr h
  simp only [filterGraph, List.length_cons, List.range_succ_eq_map,
    List.map_cons, List.map_map]
  refine List.cons_eq_cons.mpr ⟨?_, ?_⟩
  · simp [Nat.add_sub_cancel, hlen]
  · refine List.map_congr_left ?_
    intro i hi
    have hi' : i < xs.length := List.mem_range.mp hi
    simp only [Function.comp_apply, List.getD_cons_succ, Nat.add_sub_cancel]
    congr 1
    by_cases hcase : i < xs.length - 1
    · rw [if_pos (by omega), if_pos hcase]
    · rw [if_neg (by omega), if_neg hcase]

/-- Rendering the filter graph of a non-empty input list interleaves the
inputs with the configured silence, with nothing after the last input. -/
theorem renderGraph_eq_intersperse (s : ℚ) (hs : s ≠ 0) :
    ∀ (xs : List String) (x : String),
      (filterGraph (x :: xs) s).flatMap renderPad =
        List.intersperse (.silence s) ((x :: xs).map .sound) := by
  intro xs
  induction xs with
  | nil =>
    intro x
    simp [filterGraph_singleton, renderPad, List.intersperse]
  | cons y ys ih =>
    intro x
    rw [filterGraph_cons x (y :: ys) s (by simp)]
    simp only [List.flatMap_cons, ih y, List.map_cons]
    have : renderPad (x, s) = [.sound x, .silence s] := by
      simp [renderPad, hs]
    simp [this, List.intersperse]

/-- The pad durations of the filter graph: the configured silence on every
input except the last, and zero on the last. -/
theorem filterGraph_pads (inputs : List String) (s : ℚ) (h : inputs ≠ []) :
    (filterGraph inputs s).map Prod.snd =
      List.replicate (inputs.length - 1) s ++ [0] := by
  match inputs with
  | [x] => simp [filterGraph_singleton]
  | x :: y :: rest =>
    induction rest generalizing x y with
    | nil => simp [filterGraph_cons x [y] s (by simp), filterGraph_singleton]
    | cons z rest ih =>
      rw [filterGraph_cons x (y :: z :: rest) s (by simp), List.map_cons,
        ih y z (by simp)]
      simp [List.replicate_succ]

/-- The concat node consumes the inputs in exactly the input order. -/
theorem filterGraph_order (inputs : List String) (s : ℚ) :
    (filterGraph inputs s).map Prod.fst = inputs := by
  induction inputs with
  | nil => rfl
  | cons x xs ih =>
    match xs with
    | [] => simp [filterGraph_singleton]
    | y :: ys => rw [filterGraph_cons x (y :: ys) s (by simp)]; simp_all

/-- Timeline of `mergeAudioFiles` on a non-empty input list with a non-zero
silence duration: the inputs in order, separated by the silence. -/
theorem mergeTimeline_eq_intersperse (inputs : List String) (s : ℚ)
    (h : inputs ≠ []) (hs : s ≠ 0) :
    mergeTimeline inputs s =
      List.intersperse (.silence s) (inputs.map .sound) := by
  match inputs with
  | [x] => simp [mergeTimeline, List.intersperse]
  | x :: y :: rest =>
    rw [mergeTimeline, if_pos (by simp)]
    exact renderGraph_eq_intersperse s hs (y :: rest) x

/-- Recognizer for silence pieces. -/
def TimelinePiece.silencePiece : TimelinePiece → Bool
  | .silence _ => true
  | .sound _ => false

/-- An interspersed timeline holds one silence gap per consecutive pair. -/
theorem intersperse_silence_count (s : ℚ) :
    ∀ l : List String,
      (List.intersperse (TimelinePiece.silence s) (l.map .sound)).countP
        TimelinePiece.silencePiece = l.length - 1 := by
  intro l
  match l with
  | [] => rfl
  | [x] => rfl
  | x :: y :: rest =>
    have ih := intersperse_silence_count s (y :: rest)
    simp only [List.map_cons, List.intersperse, List.countP_cons,
      TimelinePiece.silencePiece, List.length_cons, if_true,
      Bool.false_eq_true, if_false] at ih ⊢
    omega

/-- Dropping the head of a list with a non-empty tail keeps the last element. -/
theorem getLast?_cons_of_ne_nil {α : Type} (a : α) (l : List α) (h : l ≠ []) :
    (a :: l).getLast? = l.getLast? := by
  match l with
  | [] => exact absurd rfl h
  | b :: t => rw [List.getLast?_cons_cons]

/-- Interspersing a non-empty list gives a non-empty list. -/
theorem intersperse_cons_ne_nil {α : Type} (sep a : α) (l : List α) :
    List.intersperse sep (a :: l) ≠ [] := by
  match l with
  | [] => simp [List.intersperse]
  | b :: t => simp [List.intersperse]

/-- The last piece of an interspersed timeline is the last input's sound. -/
theorem intersperse_silence_getLast (s : ℚ) :
    ∀ l : List String,
      (List.intersperse (TimelinePiece.silence s) (l.map .sound)).getLast? =
        l.getLast?.map .sound := by
  intro l
  match l with
  | [] => rfl
  | [x] => rfl
  | x :: y :: rest =>
    have ih := intersperse_silence_getLast s (y :: rest)
    simp only [List.map_cons, List.intersperse] at ih ⊢
    rw [List.getLast?_cons_cons,
      getLast?_cons_of_ne_nil _ _ (intersperse_cons_ne_nil _ _ _), ih,
      List.getLast?_cons_cons]

/-- A list extended by one element ends in that element. -/
theorem getLast?_append_singleton {α : Type} :
    ∀ (l : List α) (a : α), (l ++ [a]).getLast? = some a := by
  intro l a
  induction l with
  | nil => rfl
  | cons x t ih =>
    rw [List.cons_append, getLast?_cons_of_ne_nil x (t ++ [a]) (by simp), ih]

/-- Rendering a filter graph whose pads are all zero emits the inputs only. -/
theorem flatMap_renderPad_zero :
    ∀ g : List (String × ℚ), (∀ p ∈ g, p.2 = 0) →
      g.flatMap renderPad = g.map (fun p => TimelinePiece.sound p.1) := by
  intro g
  induction g with
  | nil => intro _; rfl
  | cons p t ih =>
    intro hz
    simp only [List.flatMap_cons, List.map_cons,
      ih (fun p hp => hz p (by simp [hp]))]
    rw [renderPad, if_pos (hz p (by simp))]
    rfl

/-- With a zero silence duration the timeline is the inputs with no gaps. -/
theorem mergeTimeline_zero (inputs : List String) :
    mergeTimeline inputs 0 = inputs.map .sound := by
  rw [mergeTimeline]
  split
  · rw [flatMap_renderPad_zero _ (fun p hp => ?_)]
    · have hmm : (filterGraph inputs 0).map (fun p => TimelinePiece.sound p.1) =
          ((filterGraph inputs 0).map Prod.fst).map TimelinePiece.sound := by
        rw [List.map_map]
        rfl
      rw [hmm, filterGraph_order]
    · obtain ⟨i, -, rfl⟩ := List.mem_map.mp hp
      simp only
      split <;> rfl
  · rfl

/-- Mapping preserves the last element. -/
theorem getLast?_map_sound (l : List String) :
    (l.map TimelinePiece.sound).getLast? = l.getLast?.map TimelinePiece.sound := by
  induction l with
  | nil => rfl
  | cons x t ih =>
    match t with
    | [] => rfl
    | y :: t2 =>
      rw [List.map_cons, List.map_cons, List.getLast?_cons_cons,
        List.getLast?_cons_cons]
      exact ih

/-- C4: on a non-empty ordered input list with a non-negative silence
duration, the filter graph pads each of the first `n-1` inputs with the
configured silence and the last with zero, concatenates the padded streams in
exactly the input order, and the resulting timeline is the inputs in order
separated by exactly `n-1` silence gaps with no trailing silence (at zero
duration the gaps are empty and the timeline is the bare inputs); the
with-intro variant runs on the effective list with the intro first and the
outro last. -/
theorem mergeAudioFiles_timeline (inputs : List String) (s : ℚ)
    (introFile outroFile : String) (h : inputs ≠ []) (hnonneg : 0 ≤ s) :
    (s ≠ 0 → mergeTimeline inputs s =
      List.intersperse (.silence s) (inputs.map .sound)) ∧
    (s = 0 → mergeTimeline inputs s = inputs.map .sound) ∧
    (1 < inputs.length →
      (filterGraph inputs s).map Prod.snd =
        List.replicate (inputs.length - 1) s ++ [0]) ∧
    (1 < inputs.length → (filterGraph inputs s).map Prod.fst = inputs) ∧
    (s ≠ 0 → (mergeTimeline inputs s).countP TimelinePiece.silencePiece =
      inputs.length - 1) ∧
    (mergeTimeline inputs s).getLast? = inputs.getLast?.map .sound ∧
    (s ≠ 0 → mergeTimelineWithIntro introFile inputs outroFile s =
      List.intersperse (.silence s)
        ((introFile :: inputs ++ [outroFile]).map .sound)) ∧
    (s = 0 → mergeTimelineWithIntro introFile inputs outroFile s =
      (introFile :: inputs ++ [outroFile]).map .sound) ∧
    (allFilesWithIntro introFile inputs outroFile).head? = some introFile ∧
    (allFilesWithIntro introFile inputs outroFile).getLast? = some outroFile := by
  refine ⟨fun hs => mergeTimeline_eq_intersperse inputs s h hs,
    fun hs => by rw [hs]; exact mergeTimeline_zero inputs,
    fun _ => filterGraph_pads inputs s h,
    fun _ => filterGraph_order inputs s, ?_, ?_, ?_, ?_, rfl, ?_⟩
  · intro hs
    rw [mergeTimeline_eq_intersperse inputs s h hs]
    exact intersperse_silence_count s inputs
  · by_cases hs : s = 0
    · rw [hs, mergeTimeline_zero inputs]
      exact getLast?_map_sound inputs
    · rw [mergeTimeline_eq_intersperse inputs s h hs]
      exact intersperse_silence_getLast s inputs
  · intro hs
    unfold mergeTimelineWithIntro
    rw [mergeTimeline_eq_intersperse _ s (by simp [allFilesWithIntro]) hs]
    rfl
  · intro hs
    unfold mergeTimelineWithIntro
    rw [hs]
    exact mergeTimeline_zero _
  · exact getLast?_append_singleton (introFile :: inputs) outroFile

/-- Witness for C4 on the spec's three-input example. -/
theorem mergeAudioFiles_timeline_witness :
    ((["A", "B", "C"] : List String) ≠ [] ∧ (0 : ℚ) ≤ 2) ∧
    (((2 : ℚ) ≠ 0 → mergeTimeline ["A", "B", "C"] 2 =
      List.intersperse (.silence 2)
        ((["A", "B", "C"] : List String).map .sound)) ∧
    ((2 : ℚ) = 0 → mergeTimeline ["A", "B", "C"] 2 =
      (["A", "B", "C"] : List String).map .sound) ∧
    (1 < (["A", "B", "C"] : List String).length →
      (filterGraph ["A", "B", "C"] 2).map Prod.snd =
        List.replicate ((["A", "B", "C"] : List String).length - 1) 2 ++ [0]) ∧
    (1 < (["A", "B", "C"] : List String).length →
      (filterGraph ["A", "B", "C"] 2).map Prod.fst = ["A", "B", "C"]) ∧
    ((2 : ℚ) ≠ 0 →
      (mergeTimeline ["A", "B", "C"] 2).countP TimelinePiece.silencePiece =
        (["A", "B", "C"] : List String).length - 1) ∧
    (mergeTimeline ["A", "B", "C"] 2).getLast? =
      (["A", "B", "C"] : List String).getLast?.map .sound ∧
    ((2 : ℚ) ≠ 0 → mergeTimelineWithIntro "I" ["A", "B", "C"] "O" 2 =
      List.intersperse (.silence 2)
        (("I" :: ["A", "B", "C"] ++ ["O"] : List String).map .sound)) ∧
    ((2 : ℚ) = 0 → mergeTimelineWithIntro "I" ["A", "B", "C"] "O" 2 =
      ("I" :: ["A", "B", "C"] ++ ["O"] : List String).map .sound) ∧
    (allFilesWithIntro "I" ["A", "B", "C"] "O").head? = some "I" ∧
    (allFilesWithIntro "I" ["A", "B", "C"] "O").getLast? = some "O") :=
  ⟨⟨by decide, by decide⟩,
   mergeAudioFiles_timeline ["A", "B", "C"] 2 "I" "O" (by decide) (by decide)⟩

/-- A resolution error names an id that is listed and unresolvable. -/
theorem resolveAudioFiles_error_mem (db : DB) :
    ∀ (ids : List Nat) (j : Nat), resolveAudioFiles db ids = .error j →
      j ∈ ids ∧ AudioFileModel.findById db j = none := by
  intro ids
  induction ids with
  | nil => intro j h; simp [resolveAudioFiles] at h
  | cons i rest ih =>
    intro j h
    simp only [resolveAudioFiles] at h
    cases hfind : AudioFileModel.findById db i with
    | none =>
      rw [hfind] at h
      cases h
      exact ⟨by simp, hfind⟩
    | some f =>
      rw [hfind] at h
      cases hrest : resolveAudioFiles db rest with
      | error j' =>
        rw [hrest] at h
        cases h
        obtain ⟨hmem, hnone⟩ := ih j hrest
        exact ⟨by simp [hmem], hnone⟩
      | ok fs => rw [hrest] at h; cases h

/-- A successful resolution returns the rows of the listed ids in order. -/
theorem resolveAudioFiles_ok_ids (db : DB) :
    ∀ (ids : List Nat) (files : List AudioFile),
      resolveAudioFiles db ids = .ok files →
      files.map (fun f => f.id) = ids ∧
      ∀ i ∈ ids, AudioFileModel.findById db i ≠ none := by
  intro ids
  induction ids with
  | nil =>
    intro files h
    simp only [resolveAudioFiles] at h
    cases h
    exact ⟨rfl, by simp⟩
  | cons i rest ih =>
    intro files h
    simp only [resolveAudioFiles] at h
    cases hfind : AudioFileModel.findById db i with
    | none => rw [hfind] at h; cases h
    | some f =>
      rw [hfind] at h
      cases hrest : resolveAudioFiles db rest with
      | error j' => rw [hrest] at h; cases h
      | ok fs =>
        rw [hrest] at h
        cases h
        obtain ⟨hmap, hall⟩ := ih fs hrest
        have hid : f.id = i := by
          have := List.find?_some hfind
          simpa using this
        refine ⟨by simp [hmap, hid], ?_⟩
        intro i' hi'
        rcases List.mem_cons.mp hi' with rfl | hmem
        · simp [hfind]
        · exact hall i' hmem

/-- C1: when the concatenation step fails (missing input or transcoder
failure), `mergeAndSaveAudioFiles` reports an error, leaves the whole state
untouched, and no ledger row referencing the attempted output path exists
afterwards; `mergePlaylist` and `mergeUnprocessedAudioFiles` are exactly this
operation once their id list is resolved. -/
theorem mergeAndSave_atomicity (w : World) (now today : String) (ids : List Nat)
    (name : String) (files : List AudioFile)
    (h1 : ids ≠ [])
    (h2 : resolveAudioFiles w.db ids = .ok files)
    (h3 : exceptOk (mergeAudioFilesRun w.fs (files.map (fun f => f.file_path))
            (outputPathFor name now)) = false)
    (h4 : ∀ row ∈ w.db.mergedFiles, row.file_path ≠ outputPathFor name now) :
    (mergeAndSaveAudioFiles w now ids name).1.status = .error ∧
    (mergeAndSaveAudioFiles w now ids name).2 = w ∧
    (∀ row ∈ (mergeAndSaveAudioFiles w now ids name).2.db.mergedFiles,
      row.file_path ≠ outputPathFor name now) ∧
    (∀ (pid : Nat) (pl : Playlist) (nm : Option String),
      PlaylistModel.findById w.db pid = some pl →
      PlaylistModel.getAudioFileIds w.db pid = ids →
      mergePlaylist w now pid nm =
        mergeAndSaveAudioFiles w now ids (nm.getD ("プレイリスト_" ++ pl.name))) ∧
    (∀ nm : Option String, unprocessedAudioFileIds w.db 1000 = ids →
      mergeUnprocessedAudioFiles w now today nm =
        mergeAndSaveAudioFiles w now ids (nm.getD ("自動生成_" ++ today))) := by
  have hmain : mergeAndSaveAudioFiles w now ids name =
      ({ status := .error,
         message := "音声ファイルの結合と保存に失敗しました: " ++
           (match mergeAudioFilesRun w.fs (files.map (fun f => f.file_path))
               (outputPathFor name now) with
            | .error m => m
            | .ok _ => ""),
         data := none }, w) := by
    simp only [mergeAndSaveAudioFiles, List.isEmpty_iff, h1, if_false, h2]
    cases hrun : mergeAudioFilesRun w.fs (files.map (fun f => f.file_path))
        (outputPathFor name now) with
    | error m => simp
    | ok fs' => rw [hrun] at h3; simp [exceptOk] at h3
  refine ⟨by rw [hmain], by rw [hmain], by rw [hmain]; exact h4, ?_, ?_⟩
  · intro pid pl nm hpl hids
    simp only [mergePlaylist, hpl, hids, List.isEmpty_iff, h1, if_false]
  · intro nm hids
    simp only [mergeUnprocessedAudioFiles, hids, List.isEmpty_iff, h1, if_false]

/-- Witness for C1: one existing segment, transcoder failure. -/
theorem mergeAndSave_atomicity_witness :
    (([1] : List Nat) ≠ [] ∧
     resolveAudioFiles (⟨⟨[⟨1, 0, "a.mp3"⟩], [], [], [], 1, 1⟩,
         ⟨["a.mp3"], false⟩⟩ : World).db [1] = .ok [⟨1, 0, "a.mp3"⟩] ∧
     exceptOk (mergeAudioFilesRun (⟨⟨[⟨1, 0, "a.mp3"⟩], [], [], [], 1, 1⟩,
         ⟨["a.mp3"], false⟩⟩ : World).fs
       (([⟨1, 0, "a.mp3"⟩] : List AudioFile).map (fun f => f.file_path))
       (outputPathFor "ep" "T")) = false ∧
     (∀ row ∈ (⟨⟨[⟨1, 0, "a.mp3"⟩], [], [], [], 1, 1⟩,
         ⟨["a.mp3"], false⟩⟩ : World).db.mergedFiles,
       row.file_path ≠ outputPathFor "ep" "T")) ∧
    (mergeAndSaveAudioFiles ⟨⟨[⟨1, 0, "a.mp3"⟩], [], [], [], 1, 1⟩,
        ⟨["a.mp3"], false⟩⟩ "T" [1] "ep").1.status = .error ∧
    (mergeAndSaveAudioFiles ⟨⟨[⟨1, 0, "a.mp3"⟩], [], [], [], 1, 1⟩,
        ⟨["a.mp3"], false⟩⟩ "T" [1] "ep").2 =
      ⟨⟨[⟨1, 0, "a.mp3"⟩], [], [], [], 1, 1⟩, ⟨["a.mp3"], false⟩⟩ := by
  refine ⟨⟨by decide, by decide, by decide, by decide⟩, ?_, ?_⟩
  · exact (mergeAndSave_atomicity _ "T" "D" [1] "ep" [⟨1, 0, "a.mp3"⟩]
      (by decide) (by decide) (by decide) (by decide)).1
  · exact (mergeAndSave_atomicity _ "T" "D" [1] "ep" [⟨1, 0, "a.mp3"⟩]
      (by decide) (by decide) (by decide) (by decide)).2.1

/-- C7: an empty id list or an unresolvable listed id makes
`mergeAndSaveAudioFiles` return an error (naming the missing id) with the
state — filesystem and ledger — completely untouched; on success the inserted
ledger row records the given id list verbatim and in order. -/
theorem mergeAndSave_validation (w : World) (now : String) (ids : List Nat)
    (name : String) :
    (ids = [] → mergeAndSaveAudioFiles w now ids name =
      ({ status := .error,
         message := "結合する音声ファイルが指定されていません。",
         data := none }, w)) ∧
    (∀ j : Nat, resolveAudioFiles w.db ids = .error j → ids ≠ [] →
      mergeAndSaveAudioFiles w now ids name =
        ({ status := .error,
           message := "音声ファイルが見つかりません: ID " ++ toString j,
           data := none }, w) ∧
      j ∈ ids ∧ AudioFileModel.findById w.db j = none) ∧
    ((∃ i ∈ ids, AudioFileModel.findById w.db i = none) →
      (mergeAndSaveAudioFiles w now ids name).1.status = .error ∧
      (mergeAndSaveAudioFiles w now ids name).2 = w) ∧
    (∀ (files : List AudioFile) (fs' : Fs), ids ≠ [] →
      resolveAudioFiles w.db ids = .ok files →
      mergeAudioFilesRun w.fs (files.map (fun f => f.file_path))
          (outputPathFor name now) = .ok fs' →
      (mergeAndSaveAudioFiles w now ids name).1.status = .success ∧
      (mergeAndSaveAudioFiles w now ids name).2.db.mergedFiles =
        w.db.mergedFiles ++
          [{ id := w.db.nextMergedId, name := name,
             file_path := outputPathFor name now, source_files := ids }]) := by
  refine ⟨?_, ?_, ?_, ?_⟩
  · intro h
    subst h
    simp [mergeAndSaveAudioFiles]
  · intro j herr hne
    refine ⟨?_, resolveAudioFiles_error_mem w.db ids j herr⟩
    simp only [mergeAndSaveAudioFiles, List.isEmpty_iff, hne, if_false, herr]
  · intro hmissing
    obtain ⟨i, hi, hnone⟩ := hmissing
    have hne : ids ≠ [] := fun h => by subst h; simp at hi
    cases hres : resolveAudioFiles w.db ids with
    | error j =>
      have heq : mergeAndSaveAudioFiles w now ids name =
          ({ status := .error,
             message := "音声ファイルが見つかりません: ID " ++ toString j,
             data := none }, w) := by
        simp only [mergeAndSaveAudioFiles, List.isEmpty_iff, hne, if_false, hres]
      rw [heq]
      exact ⟨rfl, rfl⟩
    | ok files =>
      obtain ⟨-, hall⟩ := resolveAudioFiles_ok_ids w.db ids files hres
      exact absurd hnone (hall i hi)
  · intro files fs' hne hres hrun
    simp only [mergeAndSaveAudioFiles, List.isEmpty_iff, hne, if_false, hres, hrun]
    exact ⟨by trivial, by simp [MergedAudioFileModel.create]⟩

/-- Witness for C7: the empty list, a missing id, and a successful merge, each
at a concrete state. -/
theorem mergeAndSave_validation_witness :
    (mergeAndSaveAudioFiles ⟨⟨[⟨1, 0, "a.mp3"⟩], [], [], [], 1, 1⟩,
        ⟨["a.mp3"], true⟩⟩ "T" [] "ep" =
      ({ status := .error,
         message := "結合する音声ファイルが指定されていません。",
         data := none }, ⟨⟨[⟨1, 0, "a.mp3"⟩], [], [], [], 1, 1⟩,
        ⟨["a.mp3"], true⟩⟩)) ∧
    (mergeAndSaveAudioFiles ⟨⟨[⟨1, 0, "a.mp3"⟩], [], [], [], 1, 1⟩,
        ⟨["a.mp3"], true⟩⟩ "T" [1, 9] "ep" =
      ({ status := .error,
         message := "音声ファイルが見つかりません: ID " ++ toString 9,
         data := none }, ⟨⟨[⟨1, 0, "a.mp3"⟩], [], [], [], 1, 1⟩,
        ⟨["a.mp3"], true⟩⟩)) ∧
    (mergeAndSaveAudioFiles ⟨⟨[⟨1, 0, "a.mp3"⟩], [], [], [], 1, 1⟩,
        ⟨["a.mp3"], true⟩⟩ "T" [1] "ep").2.db.mergedFiles =
      [] ++ [{ id := 1, name := "ep", file_path := outputPathFor "ep" "T",
               source_files := [1] }] := by
  refine ⟨?_, ?_, ?_⟩
  · exact (mergeAndSave_validation ⟨⟨[⟨1, 0, "a.mp3"⟩], [], [], [], 1, 1⟩,
      ⟨["a.mp3"], true⟩⟩ "T" [] "ep").1 rfl
  · exact ((mergeAndSave_validation ⟨⟨[⟨1, 0, "a.mp3"⟩], [], [], [], 1, 1⟩,
      ⟨["a.mp3"], true⟩⟩ "T" [1, 9] "ep").2.1 9 (by decide) (by decide)).1
  · exact ((mergeAndSave_validation ⟨⟨[⟨1, 0, "a.mp3"⟩], [], [], [], 1, 1⟩,
      ⟨["a.mp3"], true⟩⟩ "T" [1] "ep").2.2.2 [⟨1, 0, "a.mp3"⟩]
      ⟨["a.mp3", outputPathFor "ep" "T"], true⟩ (by decide) (by decide)
      (by decide)).2

/-- C8 (amended): a missing playlist is an error; an existing playlist with
zero items is a Skipped outcome with no state change; an empty unprocessed set
makes `mergeUnprocessedAudioFiles` Skipped with no state change; the
with-intro variant is Skipped on an empty unprocessed set provided the intro
and outro files exist. -/
theorem merge_empty_worksets (w : World) (now today : String) (pid : Nat)
    (nm : Option String) :
    (PlaylistModel.findById w.db pid = none →
      mergePlaylist w now pid nm =
        ({ status := .error,
           message := "プレイリストが見つかりません: ID " ++ toString pid,
           data := none }, w)) ∧
    (∀ pl : Playlist, PlaylistModel.findById w.db pid = some pl →
      PlaylistModel.itemsOf w.db pid = [] →
      mergePlaylist w now pid nm =
        ({ status := .skipped,
           message := "プレイリストに音声ファイルが含まれていません: " ++ pl.name,
           data := none }, w)) ∧
    (unprocessedAudioFileIds w.db 1000 = [] →
      mergeUnprocessedAudioFiles w now today nm =
        ({ status := .skipped,
           message := "未処理の音声ファイルが見つかりませんでした。",
           data := none }, w)) ∧
    (w.fs.files.contains (audioOutputDir ++ "/radio_intro.mp3") = true →
      w.fs.files.contains (audioOutputDir ++ "/radio_outro.mp3") = true →
      unprocessedAudioFileIds w.db 100000 = [] →
      mergeUnprocessedAudioFilesWithIntro w now today nm =
        ({ status := .skipped,
           message := "未処理の音声ファイルが見つかりませんでした。",
           data := none }, w)) := by
  refine ⟨?_, ?_, ?_, ?_⟩
  · intro hnone
    simp only [mergePlaylist, hnone]
  · intro pl hpl hempty
    have hids : PlaylistModel.getAudioFileIds w.db pid = [] := by
      simp [PlaylistModel.getAudioFileIds, hempty, sortByPosition]
    simp only [mergePlaylist, hpl, hids, List.isEmpty_nil, if_true]
  · intro hempty
    simp only [mergeUnprocessedAudioFiles, hempty, List.isEmpty_nil, if_true]
  · intro hintro houtro hempty
    simp only [mergeUnprocessedAudioFilesWithIntro, hintro, houtro, hempty,
      Bool.not_true, Bool.or_self, Bool.false_eq_true, if_false,
      List.isEmpty_nil, if_true]

/-- Witness for C8: missing playlist, empty playlist, empty unprocessed set,
and the with-intro variant with both fixed assets present. -/
theorem merge_empty_worksets_witness :
    (mergePlaylist ⟨⟨[], [], [⟨1, "pl"⟩], [], 1, 1⟩,
        ⟨["./data/audio/radio_intro.mp3", "./data/audio/radio_outro.mp3"],
         true⟩⟩ "T" 2 none =
      ({ status := .error,
         message := "プレイリストが見つかりません: ID " ++ toString 2,
         data := none }, ⟨⟨[], [], [⟨1, "pl"⟩], [], 1, 1⟩,
        ⟨["./data/audio/radio_intro.mp3", "./data/audio/radio_outro.mp3"],
         true⟩⟩)) ∧
    (mergePlaylist ⟨⟨[], [], [⟨1, "pl"⟩], [], 1, 1⟩,
        ⟨["./data/audio/radio_intro.mp3", "./data/audio/radio_outro.mp3"],
         true⟩⟩ "T" 1 none =
      ({ status := .skipped,
         message := "プレイリストに音声ファイルが含まれていません: " ++ "pl",
         data := none }, ⟨⟨[], [], [⟨1, "pl"⟩], [], 1, 1⟩,
        ⟨["./data/audio/radio_intro.mp3", "./data/audio/radio_outro.mp3"],
         true⟩⟩)) ∧
    ((mergeUnprocessedAudioFiles ⟨⟨[], [], [⟨1, "pl"⟩], [], 1, 1⟩,
        ⟨["./data/audio/radio_intro.mp3", "./data/audio/radio_outro.mp3"],
         true⟩⟩ "T" "D" none).1.status = .skipped) ∧
    ((mergeUnprocessedAudioFilesWithIntro ⟨⟨[], [], [⟨1, "pl"⟩], [], 1, 1⟩,
        ⟨["./data/audio/radio_intro.mp3", "./data/audio/radio_outro.mp3"],
         true⟩⟩ "T" "D" none).1.status = .skipped) := by
  refine ⟨?_, ?_, ?_, ?_⟩
  · exact (merge_empty_worksets _ "T" "D" 2 none).1 (by decide)
  · exact (merge_empty_worksets _ "T" "D" 1 none).2.1 ⟨1, "pl"⟩ (by decide)
      (by decide)
  · rw [(merge_empty_worksets _ "T" "D" 1 none).2.2.1 (by decide)]
  · rw [(merge_empty_worksets _ "T" "D" 1 none).2.2.2 (by decide) (by decide)
      (by decide)]

/-- Counterexample to C8 as stated: with an empty unprocessed set but no
cached intro file, the with-intro variant returns ERROR, not SKIPPED. -/
theorem merge_empty_worksets_counterexample :
    unprocessedAudioFileIds (⟨⟨[], [], [], [], 1, 1⟩,
        ⟨[], true⟩⟩ : World).db 100000 = [] ∧
    (mergeUnprocessedAudioFilesWithIntro ⟨⟨[], [], [], [], 1, 1⟩,
        ⟨[], true⟩⟩ "T" "D" none).1.status = .error ∧
    (mergeUnprocessedAudioFilesWithIntro ⟨⟨[], [], [], [], 1, 1⟩,
        ⟨[], true⟩⟩ "T" "D" none).1.status ≠ .skipped := by
  decide

/-- The database of the C3 counterexample: 1001 segments (ids 1..1001, in
generation order), no ledger rows. -/
def wideWorld : World :=
  ⟨⟨(List.range 1001).map (fun i => ⟨i + 1, 0, "f"⟩), [], [], [], 1, 1⟩,
   ⟨[], true⟩⟩

set_option maxRecDepth 100000 in
/-- Counterexample to C3 as stated: in a store of 1001 segments with an empty
ledger, segment id 1 is absent from every ledger entry yet the resolver's
`findAll(1000, 0)` window misses it, so it is not in the computed set. -/
theorem resolver_limit_counterexample :
    (⟨1, 0, "f"⟩ : AudioFile) ∈ wideWorld.db.audioFiles ∧
    (∀ row ∈ wideWorld.db.mergedFiles, 1 ∉ row.source_files) ∧
    1 ∉ unprocessedAudioFileIds wideWorld.db 1000 := by
  refine ⟨?_, by simp [wideWorld], by decide⟩
  show (⟨1, 0, "f"⟩ : AudioFile) ∈ (List.range 1001).map (fun i => ⟨i + 1, 0, "f"⟩)
  exact List.mem_map.mpr ⟨0, by simp, rfl⟩

/-- A negated Boolean membership test is non-membership. -/
theorem not_contains_iff (l : List Nat) (a : Nat) :
    (!(l.contains a)) = true ↔ a ∉ l := by
  simp

/-- C3 (amended): on states whose segment store and ledger both fit in the
hard-coded 1000-row `findAll` window, a segment id is in the resolver's set if
and only if it is absent from every ledger entry's `source_files`; the
resolver reads only the two stores (so recomputing without intervening writes
is identical); and the ledger row created by a successful
`mergeUnprocessedAudioFiles` records exactly the resolved set. -/
theorem resolver_spec_bounded (w : World) (now today : String) (nm : Option String)
    (hA : w.db.audioFiles.length ≤ 1000) (hM : w.db.mergedFiles.length ≤ 1000) :
    (∀ f ∈ w.db.audioFiles,
      f.id ∈ unprocessedAudioFileIds w.db 1000 ↔
        ∀ row ∈ w.db.mergedFiles, f.id ∉ row.source_files) ∧
    (∀ db' : DB, w.db.audioFiles = db'.audioFiles →
      w.db.mergedFiles = db'.mergedFiles →
      unprocessedAudioFileIds w.db 1000 = unprocessedAudioFileIds db' 1000) ∧
    (∀ (files : List AudioFile) (fs' : Fs),
      unprocessedAudioFileIds w.db 1000 ≠ [] →
      resolveAudioFiles w.db (unprocessedAudioFileIds w.db 1000) = .ok files →
      mergeAudioFilesRun w.fs (files.map (fun f => f.file_path))
          (outputPathFor (nm.getD ("自動生成_" ++ today)) now) = .ok fs' →
      (mergeUnprocessedAudioFiles w now today nm).2.db.mergedFiles =
        w.db.mergedFiles ++
          [{ id := w.db.nextMergedId, name := nm.getD ("自動生成_" ++ today),
             file_path := outputPathFor (nm.getD ("自動生成_" ++ today)) now,
             source_files := unprocessedAudioFileIds w.db 1000 }]) := by
  have hAll : AudioFileModel.findAll w.db 1000 0 = w.db.audioFiles.reverse := by
    simp only [AudioFileModel.findAll, List.drop_zero]
    exact List.take_of_length_le (by simpa using hA)
  have hMer : MergedAudioFileModel.findAll w.db 1000 0 =
      w.db.mergedFiles.reverse := by
    simp only [MergedAudioFileModel.findAll, List.drop_zero]
    exact List.take_of_length_le (by simpa using hM)
  refine ⟨?_, ?_, ?_⟩
  · intro f hf
    simp only [unprocessedAudioFileIds, hAll, hMer]
    constructor
    · intro hmem
      obtain ⟨g, hg, hgid⟩ := List.mem_map.mp hmem
      obtain ⟨hgmem, hp⟩ := List.mem_filter.mp hg
      intro row hrow hin
      have hnot := (not_contains_iff _ _).mp hp
      apply hnot
      rw [hgid]
      exact List.mem_flatMap.mpr ⟨row, List.mem_reverse.mpr hrow, hin⟩
    · intro hforall
      refine List.mem_map.mpr ⟨f, List.mem_filter.mpr
        ⟨List.mem_reverse.mpr hf, ?_⟩, rfl⟩
      refine (not_contains_iff _ _).mpr ?_
      intro hmem
      obtain ⟨row, hrow, hin⟩ := List.mem_flatMap.mp hmem
      exact hforall row (List.mem_reverse.mp hrow) hin
  · intro db' h1 h2
    simp only [unprocessedAudioFileIds, AudioFileModel.findAll,
      MergedAudioFileModel.findAll, h1, h2]
  · intro files fs' hne hres hrun
    simp only [mergeUnprocessedAudioFiles, List.isEmpty_iff, hne, if_false]
    simp only [mergeAndSaveAudioFiles, List.isEmpty_iff, hne, if_false, hres,
      hrun]
    simp [MergedAudioFileModel.create]

/-- Witness for C3 (amended) at a small concrete state: segments 5, 7, 9 with
segment 7 already consumed by a ledger row. -/
theorem resolver_spec_bounded_witness :
    ((⟨⟨[⟨5, 0, "a"⟩, ⟨7, 0, "b"⟩, ⟨9, 0, "c"⟩],
        [⟨1, "old", "o.mp3", [7]⟩], [], [], 1, 2⟩,
       ⟨["a", "b", "c"], true⟩⟩ : World).db.audioFiles.length ≤ 1000 ∧
     (⟨⟨[⟨5, 0, "a"⟩, ⟨7, 0, "b"⟩, ⟨9, 0, "c"⟩],
        [⟨1, "old", "o.mp3", [7]⟩], [], [], 1, 2⟩,
       ⟨["a", "b", "c"], true⟩⟩ : World).db.mergedFiles.length ≤ 1000) ∧
    (∀ f ∈ (⟨⟨[⟨5, 0, "a"⟩, ⟨7, 0, "b"⟩, ⟨9, 0, "c"⟩],
        [⟨1, "old", "o.mp3", [7]⟩], [], [], 1, 2⟩,
       ⟨["a", "b", "c"], true⟩⟩ : World).db.audioFiles,
      f.id ∈ unprocessedAudioFileIds (⟨⟨[⟨5, 0, "a"⟩, ⟨7, 0, "b"⟩, ⟨9, 0, "c"⟩],
        [⟨1, "old", "o.mp3", [7]⟩], [], [], 1, 2⟩,
       ⟨["a", "b", "c"], true⟩⟩ : World).db 1000 ↔
        ∀ row ∈ (⟨⟨[⟨5, 0, "a"⟩, ⟨7, 0, "b"⟩, ⟨9, 0, "c"⟩],
        [⟨1, "old", "o.mp3", [7]⟩], [], [], 1, 2⟩,
       ⟨["a", "b", "c"], true⟩⟩ : World).db.mergedFiles,
          f.id ∉ row.source_files) :=
  ⟨⟨by decide, by decide⟩,
   (resolver_spec_bounded ⟨⟨[⟨5, 0, "a"⟩, ⟨7, 0, "b"⟩, ⟨9, 0, "c"⟩],
        [⟨1, "old", "o.mp3", [7]⟩], [], [], 1, 2⟩,
       ⟨["a", "b", "c"], true⟩⟩ "T" "D" none (by decide) (by decide)).1⟩

/-- The state of the C6 counterexample: two segments generated in id order,
both files on disk, empty ledger, transcoder succeeding. -/
def twoSegWorld : World :=
  ⟨⟨[⟨1, 0, "a"⟩, ⟨2, 0, "b"⟩], [], [], [], 1, 1⟩, ⟨["a", "b"], true⟩⟩

/-- Counterexample to C6 as stated: with segments 1 and 2 unprocessed, the
resolver yields `[2, 1]` — `generated_at` descending, not ascending ids — and
the ledger row created by the merge records `[2, 1]`, not `[1, 2]`. -/
theorem mergeUnprocessed_order_counterexample :
    List.Pairwise (· < ·) (twoSegWorld.db.audioFiles.map (fun f => f.id)) ∧
    unprocessedAudioFileIds twoSegWorld.db 1000 = [2, 1] ∧
    unprocessedAudioFileIds twoSegWorld.db 1000 ≠ [1, 2] ∧
    (mergeUnprocessedAudioFiles twoSegWorld "T" "D" (some "ep")).2.db.mergedFiles.map
      (fun r => r.source_files) = [[2, 1]] := by
  decide

/-- C6 (amended): when stored segment ids ascend with generation order (the
`AUTOINCREMENT` reality), the resolver's list is strictly *descending* by id —
newest first, the order of `findAll`'s `generated_at DESC` — and
`mergeUnprocessedAudioFiles` hands exactly that list, in that order, to
`mergeAndSaveAudioFiles`, whose resolution preserves order, so both the
concatenation inputs and the recorded `source_files` follow it. -/
theorem mergeUnprocessed_order_descending (w : World) (now today : String)
    (nm : Option String) (limit : Nat)
    (hMono : List.Pairwise (· < ·) (w.db.audioFiles.map (fun f => f.id))) :
    List.Pairwise (· > ·) (unprocessedAudioFileIds w.db limit) ∧
    (∀ (ids : List Nat) (files : List AudioFile),
      resolveAudioFiles w.db ids = .ok files →
      files.map (fun f => f.id) = ids) ∧
    (unprocessedAudioFileIds w.db 1000 ≠ [] →
      mergeUnprocessedAudioFiles w now today nm =
        mergeAndSaveAudioFiles w now (unprocessedAudioFileIds w.db 1000)
          (nm.getD ("自動生成_" ++ today))) := by
  refine ⟨?_, fun ids files h => (resolveAudioFiles_ok_ids w.db ids files h).1, ?_⟩
  · have h2 : w.db.audioFiles.reverse.Pairwise (fun f g => g.id < f.id) := by
      rw [List.pairwise_reverse]
      exact List.pairwise_map.mp hMono
    simp only [unprocessedAudioFileIds, AudioFileModel.findAll, List.drop_zero]
    rw [List.pairwise_map]
    refine List.Pairwise.sublist ?_ h2
    exact (List.filter_sublist _).trans (List.take_sublist _ _)
  · intro hne
    simp only [mergeUnprocessedAudioFiles, List.isEmpty_iff, hne, if_false]

/-- Witness for C6 (amended) at the two-segment state. -/
theorem mergeUnprocessed_order_descending_witness :
    List.Pairwise (· < ·) (twoSegWorld.db.audioFiles.map (fun f => f.id)) ∧
    List.Pairwise (· > ·) (unprocessedAudioFileIds twoSegWorld.db 1000) :=
  ⟨by decide,
   (mergeUnprocessed_order_descending twoSegWorld "T" "D" none 1000
     (by decide)).1⟩

/-- Number of membership rows of one (playlist, audio file) pair. -/
def membershipCount (db : DB) (pid afid : Nat) : Nat :=
  db.playlistItems.countP (fun r => r.playlist_id == pid && r.audio_file_id == afid)

/-- The state of the C9 counterexample: playlist 1 already containing audio
file 2 at position 1. -/
def dupDB : DB := ⟨[⟨2, 0, "a"⟩], [], [⟨1, "pl"⟩], [⟨1, 1, 2, 1⟩], 2, 1⟩

/-- Counterexample to C9 as stated: `PlaylistModel.addPlaylistItem` inserts
unconditionally — adding an already-member segment succeeds (returning the new
rowid) and leaves the segment in the playlist twice. -/
theorem addPlaylistItem_duplicate_counterexample :
    membershipCount dupDB 1 2 = 1 ∧
    (PlaylistModel.addPlaylistItem dupDB 1 2).1 = 2 ∧
    membershipCount (PlaylistModel.addPlaylistItem dupDB 1 2).2 1 2 = 2 := by
  decide

/-- C9 (amended): the model-layer `addPlaylistItem` appends unconditionally at
max position + 1; the duplicate check lives in the service layer —
`addAudioFileToPlaylist` returns SKIPPED without touching the state when the
membership already exists — so additions routed through the service keep each
segment in a playlist at most once. -/
theorem playlist_duplicate_handling (db : DB) (pid afid : Nat) :
    ((PlaylistModel.addPlaylistItem db pid afid).2.playlistItems =
      db.playlistItems ++
        [{ id := db.nextItemId, playlist_id := pid, audio_file_id := afid,
           position := PlaylistModel.maxPosition db pid + 1 }]) ∧
    (∀ (pl : Playlist) (af : AudioFile) (it : PlaylistItem),
      PlaylistModel.findById db pid = some pl →
      AudioFileModel.findById db afid = some af →
      PlaylistModel.findPlaylistItem db pid afid = some it →
      addAudioFileToPlaylist db pid afid = (.skipped, db)) ∧
    (membershipCount db pid afid ≤ 1 →
      membershipCount (addAudioFileToPlaylist db pid afid).2 pid afid ≤ 1) := by
  refine ⟨rfl, ?_, ?_⟩
  · intro pl af it hpl haf hit
    simp only [addAudioFileToPlaylist, hpl, haf, hit]
  · intro hle
    cases hpl : PlaylistModel.findById db pid with
    | none => simpa [addAudioFileToPlaylist, hpl] using hle
    | some pl =>
      cases haf : AudioFileModel.findById db afid with
      | none => simpa [addAudioFileToPlaylist, hpl, haf] using hle
      | some af =>
        cases hit : PlaylistModel.findPlaylistItem db pid afid with
        | some it => simpa [addAudioFileToPlaylist, hpl, haf, hit] using hle
        | none =>
          have hzero : membershipCount db pid afid = 0 := by
            rw [membershipCount, List.countP_eq_zero]
            intro r hr
            have := List.find?_eq_none.mp hit r hr
            simpa using this
          simp only [addAudioFileToPlaylist, hpl, haf, hit]
          simp only [membershipCount, PlaylistModel.addPlaylistItem,
            List.countP_append] at hzero ⊢
          simp [hzero]

/-- Witness for C9 (amended): the duplicate add is skipped and the membership
count stays at one. -/
theorem playlist_duplicate_handling_witness :
    (PlaylistModel.findById dupDB 1 = some ⟨1, "pl"⟩ ∧
     AudioFileModel.findById dupDB 2 = some ⟨2, 0, "a"⟩ ∧
     PlaylistModel.findPlaylistItem dupDB 1 2 = some ⟨1, 1, 2, 1⟩ ∧
     membershipCount dupDB 1 2 ≤ 1) ∧
    addAudioFileToPlaylist dupDB 1 2 = (.skipped, dupDB) ∧
    membershipCount (addAudioFileToPlaylist dupDB 1 2).2 1 2 ≤ 1 :=
  ⟨⟨by decide, by decide, by decide, by decide⟩,
   (playlist_duplicate_handling dupDB 1 2).2.1 ⟨1, "pl"⟩ ⟨2, 0, "a"⟩ ⟨1, 1, 2, 1⟩
     (by decide) (by decide) (by decide),
   (playlist_duplicate_handling dupDB 1 2).2.2 (by decide)⟩

/-- `countP` under pointwise equality of the predicates on members. -/
theorem countP_congr_eq {α : Type} (l : List α) (p q : α → Bool)
    (h : ∀ a ∈ l, p a = q a) : l.countP p = l.countP q :=
  List.countP_congr (fun a ha => by rw [h a ha])

/-- `countP` of a member-wise disjoint disjunction is the sum of the counts. -/
theorem countP_or_disjoint {α : Type} (l : List α) (p q : α → Bool)
    (h : ∀ a ∈ l, ¬(p a = true ∧ q a = true)) :
    l.countP (fun a => p a || q a) = l.countP p + l.countP q := by
  induction l with
  | nil => rfl
  | cons x t ih =>
    have hx := h x (by simp)
    have ht : ∀ a ∈ t, ¬(p a = true ∧ q a = true) := fun a ha => h a (by simp [ha])
    simp only [List.countP_cons, ih ht]
    cases hp : p x <;> cases hq : q x <;> simp_all <;> omega

/-- `countP` of a conjunction with a constant. -/
theorem countP_and_const {α : Type} (l : List α) (p : α → Bool) (c : Bool) :
    l.countP (fun a => p a && c) = if c = true then l.countP p else 0 := by
  cases c <;> simp

/-- A count splits along any second predicate. -/
theorem countP_split_pred {α : Type} (l : List α) (p q : α → Bool) :
    l.countP p = l.countP (fun a => p a && q a) +
      l.countP (fun a => p a && !(q a)) := by
  induction l with
  | nil => rfl
  | cons x t ih =>
    simp only [List.countP_cons, ih]
    cases hp : p x <;> cases hq : q x <;> simp <;> omega

/-- With pairwise-distinct ids, two members sharing an id are one member. -/
theorem eq_of_mem_of_id_eq (l : List PlaylistItem) (item r : PlaylistItem)
    (hnodup : (l.map (fun x => x.id)).Nodup) (hitem : item ∈ l) (hr : r ∈ l)
    (hid : r.id = item.id) : r = item := by
  induction l with
  | nil => simp at hitem
  | cons x t ih =>
    simp only [List.map_cons, List.nodup_cons] at hnodup
    obtain ⟨hx, ht⟩ := hnodup
    rcases List.mem_cons.mp hitem with rfl | hitemt
    · rcases List.mem_cons.mp hr with rfl | hrt
      · rfl
      · exact absurd (hid ▸ List.mem_map_of_mem (fun x => x.id) hrt) hx
    · rcases List.mem_cons.mp hr with rfl | hrt
      · exact absurd (hid ▸ List.mem_map_of_mem (fun x => x.id) hitemt)
          (fun hc => hx hc)
      · exact ih ht hitemt hrt

/-- With pairwise-distinct ids, the rows matching a member's id contribute
exactly the member. -/
theorem countP_id_unique (l : List PlaylistItem) (item : PlaylistItem)
    (hnodup : (l.map (fun x => x.id)).Nodup) (hitem : item ∈ l)
    (p : PlaylistItem → Bool) :
    l.countP (fun r => (r.id == item.id) && p r) = if p item then 1 else 0 := by
  induction l with
  | nil => simp at hitem
  | cons x t ih =>
    simp only [List.map_cons, List.nodup_cons] at hnodup
    obtain ⟨hx, ht⟩ := hnodup
    rcases List.mem_cons.mp hitem with rfl | hitemt
    · have hzero : t.countP (fun r => (r.id == item.id) && p r) = 0 := by
        rw [List.countP_eq_zero]
        intro r hr hmatch
        simp only [Bool.and_eq_true, beq_iff_eq] at hmatch
        exact hx (hmatch.1 ▸ List.mem_map_of_mem (fun x => x.id) hr)
      simp only [List.countP_cons, hzero, beq_self_eq_true, Bool.true_and]
      cases hp : p item <;> simp
    · have hxid : x.id ≠ item.id := by
        intro hc
        exact hx (hc ▸ List.mem_map_of_mem (fun x => x.id) hitemt)
      simp only [List.countP_cons, ih ht hitemt]
      simp [hxid]

/-- Deleting one member by id from an id-distinct list removes exactly its
contribution from any count. -/
theorem countP_erase_id (l : List PlaylistItem) (item : PlaylistItem)
    (hnodup : (l.map (fun x => x.id)).Nodup) (hitem : item ∈ l)
    (p : PlaylistItem → Bool) :
    (l.filter (fun r => !(r.id == item.id))).countP p =
      l.countP p - (if p item then 1 else 0) := by
  rw [List.countP_filter]
  rw [countP_split_pred l p (fun r => r.id == item.id)]
  have h1 : l.countP (fun a => p a && (a.id == item.id)) =
      if p item then 1 else 0 := by
    rw [countP_congr_eq l _ (fun r => (r.id == item.id) && p r)
      (fun a _ => Bool.and_comm _ _)]
    exact countP_id_unique l item hnodup hitem p
  rw [h1]
  omega

/-- Occurrences of position `q` among playlist `pid`'s rows. -/
def posCount (l : List PlaylistItem) (pid : Nat) (q : Int) : Nat :=
  l.countP (fun r => r.playlist_id == pid && r.position == q)

/-- Number of rows of playlist `pid`. -/
def pidCount (l : List PlaylistItem) (pid : Nat) : Nat :=
  l.countP (fun r => r.playlist_id == pid)

/-- The spec's contiguity invariant: the positions of a playlist's rows are a
permutation of `1..N` for `N` the row count (stated as a decidable multiset
equation). -/
def Contig (db : DB) (pid : Nat) : Prop :=
  (((PlaylistModel.itemsOf db pid).map (fun r => r.position) : List Int) :
      Multiset Int) =
    (((List.range' 1 (PlaylistModel.itemsOf db pid).length).map
        (fun n : Nat => (n : Int)) : List Int) : Multiset Int)

/-- The invariant is a decidable equation between concrete multisets. -/
instance (db : DB) (pid : Nat) : Decidable (Contig db pid) := by
  unfold Contig
  infer_instance

/-- Counting form of one side: the range of casts counts each of `1..N` once. -/
theorem count_castRange (q : Int) (n : Nat) :
    ((List.range' 1 n).map (fun m : Nat => (m : Int))).count q =
      if 1 ≤ q ∧ q ≤ (n : Int) then 1 else 0 := by
  have hmem : q ∈ (List.range' 1 n).map (fun m : Nat => (m : Int)) ↔
      1 ≤ q ∧ q ≤ (n : Int) := by
    simp only [List.mem_map, List.mem_range']
    constructor
    · rintro ⟨m, ⟨i, hi, rfl⟩, rfl⟩
      constructor <;> omega
    · intro ⟨h1, h2⟩
      exact ⟨q.toNat, ⟨q.toNat - 1, by omega, by omega⟩, by omega⟩
  have hnodup : ((List.range' 1 n).map (fun m : Nat => (m : Int))).Nodup :=
    (List.nodup_range' 1 n).map (fun a b h => by exact_mod_cast h)
  by_cases h : 1 ≤ q ∧ q ≤ (n : Int)
  · rw [if_pos h]
    exact List.count_eq_one_of_mem hnodup (hmem.mpr h)
  · rw [if_neg h]
    exact List.count_eq_zero_of_not_mem (fun hc => h (hmem.mp hc))

/-- The multiset invariant is equivalent to its pointwise counting form. -/
theorem contig_iff_count (db : DB) (pid : Nat) :
    Contig db pid ↔
      ∀ q : Int, posCount db.playlistItems pid q =
        if 1 ≤ q ∧ q ≤ (pidCount db.playlistItems pid : Int) then 1 else 0 := by
  have hlen : (PlaylistModel.itemsOf db pid).length =
      pidCount db.playlistItems pid := by
    rw [pidCount, List.countP_eq_length_filter]
    rfl
  have hcnt : ∀ q : Int,
      ((PlaylistModel.itemsOf db pid).map (fun r => r.position)).count q =
        posCount db.playlistItems pid q := by
    intro q
    rw [List.count_eq_countP, List.countP_map, posCount]
    rw [PlaylistModel.itemsOf, List.countP_filter]
    exact countP_congr_eq _ _ _ (fun a _ => by
      simp only [Function.comp_apply]
      rw [Bool.and_comm])
  rw [Contig, Multiset.coe_eq_coe, List.perm_iff_count]
  constructor
  · intro h q
    rw [← hcnt q, h q, count_castRange, hlen]
  · intro h q
    rw [hcnt q, h q, count_castRange, hlen]

/-- `sqlMax` returns a member that dominates the list, when one exists. -/
theorem sqlMax_spec :
    ∀ l : List Int, (l = [] ∧ sqlMax l = none) ∨
      ∃ m, sqlMax l = some m ∧ m ∈ l ∧ ∀ x ∈ l, x ≤ m := by
  intro l
  induction l with
  | nil => exact Or.inl ⟨rfl, rfl⟩
  | cons x t ih =>
    right
    rcases ih with ⟨rfl, hnone⟩ | ⟨m, hm, hmem, hbound⟩
    · exact ⟨x, by simp [sqlMax, hnone], by simp, by simp⟩
    · refine ⟨max x m, by simp [sqlMax, hm], ?_, ?_⟩
      · rcases max_choice x m with h | h <;> simp [h, hmem]
      · intro y hy
        rcases List.mem_cons.mp hy with rfl | hyt
        · exact le_max_left _ _
        · exact le_trans (hbound y hyt) (le_max_right _ _)

/-- A position occurs in playlist `pid` iff its count is positive. -/
theorem posCount_pos_iff (l : List PlaylistItem) (pid : Nat) (q : Int) :
    0 < posCount l pid q ↔
      ∃ r ∈ l, r.playlist_id = pid ∧ r.position = q := by
  rw [posCount, List.countP_pos_iff]
  constructor
  · rintro ⟨r, hr, hmatch⟩
    simp only [Bool.and_eq_true, beq_iff_eq] at hmatch
    exact ⟨r, hr, hmatch⟩
  · rintro ⟨r, hr, h1, h2⟩
    exact ⟨r, hr, by simp [h1, h2]⟩

/-- Under the invariant, every row of the playlist sits in `[1, N]`. -/
theorem pos_bound_of_count (l : List PlaylistItem) (pid : Nat)
    (hc : ∀ q : Int, posCount l pid q =
      if 1 ≤ q ∧ q ≤ (pidCount l pid : Int) then 1 else 0)
    (r : PlaylistItem) (hr : r ∈ l) (hpid : r.playlist_id = pid) :
    1 ≤ r.position ∧ r.position ≤ (pidCount l pid : Int) := by
  have hpos : 0 < posCount l pid r.position :=
    (posCount_pos_iff l pid r.position).mpr ⟨r, hr, hpid, rfl⟩
  rw [hc r.position] at hpos
  by_cases h : 1 ≤ r.position ∧ r.position ≤ (pidCount l pid : Int)
  · exact h
  · rw [if_neg h] at hpos; omega

/-- Under the invariant, `MAX(position)` (with the JS `|| 0` fallback) is
exactly the row count. -/
theorem maxPosition_of_count (db : DB) (pid : Nat)
    (hc : ∀ q : Int, posCount db.playlistItems pid q =
      if 1 ≤ q ∧ q ≤ (pidCount db.playlistItems pid : Int) then 1 else 0) :
    PlaylistModel.maxPosition db pid = (pidCount db.playlistItems pid : Int) := by
  set l := db.playlistItems with hl
  set N := pidCount l pid with hN
  rcases sqlMax_spec ((PlaylistModel.itemsOf db pid).map (fun r => r.position))
    with ⟨hnil, hnone⟩ | ⟨m, hm, hmem, hbound⟩
  · have hlen0 : (PlaylistModel.itemsOf db pid).length = 0 := by
      rw [List.map_eq_nil_iff] at hnil
      simp [hnil]
    have hN0 : N = 0 := by
      rw [hN, pidCount, List.countP_eq_length_filter]
      exact hlen0
    rw [PlaylistModel.maxPosition, hnone, hN0]
    rfl
  · have hmem' : ∃ r ∈ l, r.playlist_id = pid ∧ r.position = m := by
      obtain ⟨r, hr, hrpos⟩ := List.mem_map.mp hmem
      obtain ⟨hrl, hrpid⟩ := List.mem_filter.mp hr
      exact ⟨r, hrl, by simpa using hrpid, hrpos⟩
    have hbound' : 1 ≤ m ∧ m ≤ (N : Int) := by
      have := (posCount_pos_iff l pid m).mpr hmem'
      rw [hc m] at this
      by_cases h : 1 ≤ m ∧ m ≤ (N : Int)
      · exact h
      · rw [if_neg h] at this; omega
    have hNpos : 0 < N := by
      by_contra h
      have : (N : Int) < 1 := by omega
      omega
    have hNmem : ∃ r ∈ l, r.playlist_id = pid ∧ r.position = (N : Int) := by
      refine (posCount_pos_iff l pid (N : Int)).mp ?_
      rw [hc (N : Int), if_pos ⟨by omega, le_rfl⟩]
      omega
    have hNle : (N : Int) ≤ m := by
      obtain ⟨r, hrl, hrpid, hrpos⟩ := hNmem
      have : r.position ∈ (PlaylistModel.itemsOf db pid).map
          (fun r => r.position) := by
        refine List.mem_map_of_mem _ ?_
        rw [PlaylistModel.itemsOf, List.mem_filter]
        exact ⟨hrl, by simp [hrpid]⟩
      rw [hrpos] at this
      exact hbound _ this
    have hmN : m = (N : Int) := le_antisymm hbound'.2 hNle
    rw [PlaylistModel.maxPosition, hm, hmN, jsOrZero]
    split
    · omega
    · rfl

/-- Appending one row adds its indicator to a position count. -/
theorem posCount_append_single (l : List PlaylistItem) (r : PlaylistItem)
    (pid : Nat) (q : Int) :
    posCount (l ++ [r]) pid q = posCount l pid q +
      (if r.playlist_id = pid ∧ r.position = q then 1 else 0) := by
  rw [posCount, List.countP_append, posCount]
  congr 1
  by_cases h : r.playlist_id = pid ∧ r.position = q
  · simp [List.countP_cons, h.1, h.2]
  · rw [if_neg h]
    rw [List.countP_eq_zero]
    intro a ha
    rw [List.mem_singleton] at ha
    subst ha
    simp only [Bool.and_eq_true, beq_iff_eq]
    exact fun hc => h hc

/-- Appending one row adds its indicator to a playlist row count. -/
theorem pidCount_append_single (l : List PlaylistItem) (r : PlaylistItem)
    (pid : Nat) :
    pidCount (l ++ [r]) pid = pidCount l pid +
      (if r.playlist_id = pid then 1 else 0) := by
  rw [pidCount, List.countP_append, pidCount]
  congr 1
  by_cases h : r.playlist_id = pid
  · simp [List.countP_cons, h]
  · rw [if_neg h]
    rw [List.countP_eq_zero]
    intro a ha
    rw [List.mem_singleton] at ha
    subst ha
    simpa using h

/-- `addPlaylistItem` preserves the contiguity invariant of every playlist. -/
theorem contig_addPlaylistItem (db : DB) (pid p0 afid : Nat)
    (hc : Contig db pid) :
    Contig (PlaylistModel.addPlaylistItem db p0 afid).2 pid := by
  rw [contig_iff_count] at hc ⊢
  have hitems : (PlaylistModel.addPlaylistItem db p0 afid).2.playlistItems =
      db.playlistItems ++
        [{ id := db.nextItemId, playlist_id := p0, audio_file_id := afid,
           position := PlaylistModel.maxPosition db p0 + 1 }] := rfl
  intro q
  rw [hitems, posCount_append_single, pidCount_append_single]
  by_cases hpid : p0 = pid
  · subst hpid
    have hmax : PlaylistModel.maxPosition db p0 =
        (pidCount db.playlistItems p0 : Int) := maxPosition_of_count db p0 hc
    rw [hc q, hmax]
    simp only [eq_self_iff_true, true_and, if_true]
    split_ifs <;> push_cast at * <;> omega
  · rw [hc q]
    simp only [if_neg (fun hc' : p0 = pid => hpid hc'), if_neg
      (fun hc' : p0 = pid ∧ _ => hpid hc'.1)]
    split_ifs <;> omega

/-- The decrement map of the two removal operations, keyed by the removed
row's playlist and position. -/
def removeShift (pl0 : Nat) (k : Int) (r : PlaylistItem) : PlaylistItem :=
  if r.playlist_id == pl0 && r.position > k then
    { r with position := r.position - 1 }
  else r

/-- `removeShift` never changes the playlist column. -/
theorem removeShift_playlist (pl0 : Nat) (k : Int) (r : PlaylistItem) :
    (removeShift pl0 k r).playlist_id = r.playlist_id := by
  rw [removeShift]
  split <;> rfl

/-- The position column after `removeShift`. -/
theorem removeShift_position (pl0 : Nat) (k : Int) (r : PlaylistItem) :
    (removeShift pl0 k r).position =
      if r.playlist_id = pl0 ∧ k < r.position then r.position - 1
      else r.position := by
  rw [removeShift]
  split
  · next h =>
    simp only [Bool.and_eq_true, beq_iff_eq, decide_eq_true_eq] at h
    rw [if_pos ⟨h.1, h.2⟩]
  · next h =>
    simp only [Bool.and_eq_true, beq_iff_eq, decide_eq_true_eq, not_and] at h
    rw [if_neg (fun hc => h hc.1 hc.2)]

/-- Deleting a row of the invariant playlist and decrementing the greater
positions of its playlist re-establishes the invariant counts. -/
theorem count_removeShape (l : List PlaylistItem) (item : PlaylistItem)
    (pid : Nat)
    (hnodup : (l.map (fun x => x.id)).Nodup) (hitem : item ∈ l)
    (hcount : ∀ q : Int, posCount l pid q =
      if 1 ≤ q ∧ q ≤ (pidCount l pid : Int) then 1 else 0) :
    ∀ q : Int,
      posCount ((l.filter (fun r => !(r.id == item.id))).map
        (removeShift item.playlist_id item.position)) pid q =
      if 1 ≤ q ∧ q ≤ (pidCount ((l.filter (fun r => !(r.id == item.id))).map
          (removeShift item.playlist_id item.position)) pid : Int)
      then 1 else 0 := by
  intro q
  set lDel := l.filter (fun r => !(r.id == item.id)) with hlDel
  have hpidNew : pidCount (lDel.map (removeShift item.playlist_id item.position))
      pid = pidCount lDel pid := by
    rw [pidCount, List.countP_map, pidCount]
    exact countP_congr_eq _ _ _ (fun r _ => by
      simp only [Function.comp_apply]
      rw [show ((removeShift item.playlist_id item.position r).playlist_id == pid) =
        (r.playlist_id == pid) from by rw [removeShift_playlist]])
  have hpidDel : pidCount lDel pid =
      pidCount l pid - (if item.playlist_id = pid then 1 else 0) := by
    rw [hlDel, pidCount, countP_erase_id l item hnodup hitem, pidCount]
    congr 1
    by_cases h : item.playlist_id = pid
    · simp [h]
    · simp [h]
  have hposDel : ∀ t : Int, posCount lDel pid t =
      posCount l pid t -
        (if item.playlist_id = pid ∧ item.position = t then 1 else 0) := by
    intro t
    rw [hlDel, posCount, countP_erase_id l item hnodup hitem, posCount]
    congr 1
    by_cases h : item.playlist_id = pid ∧ item.position = t
    · simp [h.1, h.2]
    · rw [if_neg h, if_neg]
      intro hc
      simp only [Bool.and_eq_true, beq_iff_eq] at hc
      exact h hc
  by_cases hpl : item.playlist_id = pid
  · have hkN := pos_bound_of_count l pid hcount item hitem hpl
    set N := pidCount l pid with hN
    have hNpos : 1 ≤ N := by omega
    have hDelK : posCount lDel pid item.position = 0 := by
      rw [hposDel, hcount item.position, if_pos hkN, if_pos ⟨hpl, rfl⟩]
    have hNoK : ∀ r ∈ lDel, ¬(r.playlist_id = pid ∧ r.position = item.position) := by
      intro r hr
      have := List.countP_eq_zero.mp hDelK r hr
      intro hc
      exact this (by simp [hc.1, hc.2])
    have hshift : posCount (lDel.map (removeShift item.playlist_id item.position))
        pid q = posCount lDel pid (if item.position ≤ q then q + 1 else q) := by
      rw [posCount, List.countP_map, posCount]
      refine countP_congr_eq _ _ _ (fun r hr => ?_)
      simp only [Function.comp_apply]
      refine Bool.eq_iff_iff.mpr ?_
      simp only [Bool.and_eq_true, beq_iff_eq, removeShift_playlist,
        removeShift_position]
      by_cases h1 : r.playlist_id = pid
      · have hrk : r.position ≠ item.position := fun hc => hNoK r hr ⟨h1, hc⟩
        simp only [hpl, h1, eq_self_iff_true, true_and, if_true]
        constructor <;> intro hx <;> split_ifs at hx ⊢ <;> omega
      · simp [h1]
    rw [hshift, hposDel, hpidNew, hpidDel, if_pos hpl, hcount]
    have hcast : ((N - 1 : Nat) : Int) = (N : Int) - 1 := by omega
    simp only [hpl, eq_self_iff_true, true_and, hcast]
    split_ifs <;> omega
  · have hshift : posCount (lDel.map (removeShift item.playlist_id item.position))
        pid q = posCount lDel pid q := by
      rw [posCount, List.countP_map, posCount]
      refine countP_congr_eq _ _ _ (fun r hr => ?_)
      simp only [Function.comp_apply]
      refine Bool.eq_iff_iff.mpr ?_
      simp only [Bool.and_eq_true, beq_iff_eq, removeShift_playlist,
        removeShift_position]
      by_cases h1 : r.playlist_id = pid
      · have hcnd : ¬(r.playlist_id = item.playlist_id ∧
            item.position < r.position) := by
          intro hc
          exact hpl (h1 ▸ hc.1.symm)
        rw [if_neg hcnd]
      · simp [h1]
    rw [hshift, hposDel, hpidNew, hpidDel, if_neg hpl,
      if_neg (fun hc : _ ∧ _ => hpl hc.1), hcount]
    split_ifs <;> omega

/-- `removeItem` preserves the contiguity invariant of every playlist. -/
theorem contig_removeItem (db : DB) (pid id : Nat)
    (hnodup : (db.playlistItems.map (fun x => x.id)).Nodup)
    (hc : Contig db pid) :
    Contig (PlaylistModel.removeItem db id).2 pid := by
  cases hfind : db.playlistItems.find? (fun r => r.id == id) with
  | none =>
    have hsame : (PlaylistModel.removeItem db id).2 = db := by
      unfold PlaylistModel.removeItem
      rw [hfind]
    rw [hsame]
    exact hc
  | some item =>
    have hitem : item ∈ db.playlistItems := List.mem_of_find?_eq_some hfind
    have hid : item.id = id := by simpa using List.find?_some hfind
    have hnew : (PlaylistModel.removeItem db id).2.playlistItems =
        (db.playlistItems.filter (fun r => !(r.id == item.id))).map
          (removeShift item.playlist_id item.position) := by
      unfold PlaylistModel.removeItem
      rw [hfind, ← hid]
      rfl
    rw [contig_iff_count]
    intro q
    rw [hnew]
    exact count_removeShape db.playlistItems item pid hnodup hitem
      ((contig_iff_count db pid).mp hc) q

/-- `removePlaylistItem` preserves the contiguity invariant of every playlist. -/
theorem contig_removePlaylistItem (db : DB) (pid pid0 afid : Nat)
    (hnodup : (db.playlistItems.map (fun x => x.id)).Nodup)
    (hc : Contig db pid) :
    Contig (PlaylistModel.removePlaylistItem db pid0 afid).2 pid := by
  cases hfind : PlaylistModel.findPlaylistItem db pid0 afid with
  | none =>
    have hsame : (PlaylistModel.removePlaylistItem db pid0 afid).2 = db := by
      unfold PlaylistModel.removePlaylistItem
      rw [hfind]
    rw [hsame]
    exact hc
  | some item =>
    have hitem : item ∈ db.playlistItems := List.mem_of_find?_eq_some hfind
    have hpid0 : item.playlist_id = pid0 := by
      have := List.find?_some hfind
      simp only [Bool.and_eq_true, beq_iff_eq] at this
      exact this.1
    have hnew : (PlaylistModel.removePlaylistItem db pid0 afid).2.playlistItems =
        (db.playlistItems.filter (fun r => !(r.id == item.id))).map
          (removeShift item.playlist_id item.position) := by
      unfold PlaylistModel.removePlaylistItem
      rw [hfind, ← hpid0]
      rfl
    rw [contig_iff_count]
    intro q
    rw [hnew]
    exact count_removeShape db.playlistItems item pid hnodup hitem
      ((contig_iff_count db pid).mp hc) q

/-- The increment map of a move to an earlier position. -/
def moveShiftUp (pl0 : Nat) (qc k : Int) (r : PlaylistItem) : PlaylistItem :=
  if r.playlist_id == pl0 && qc ≤ r.position && r.position < k then
    { r with position := r.position + 1 }
  else r

/-- The decrement map of a move to a later position. -/
def moveShiftDown (pl0 : Nat) (k qc : Int) (r : PlaylistItem) : PlaylistItem :=
  if r.playlist_id == pl0 && k < r.position && r.position ≤ qc then
    { r with position := r.position - 1 }
  else r

/-- The final placement map of a move. -/
def movePlace (id0 : Nat) (qc : Int) (r : PlaylistItem) : PlaylistItem :=
  if r.id == id0 then { r with position := qc } else r

/-- `moveShiftUp` keeps id and playlist. -/
theorem moveShiftUp_id (pl0 : Nat) (qc k : Int) (r : PlaylistItem) :
    (moveShiftUp pl0 qc k r).id = r.id ∧
    (moveShiftUp pl0 qc k r).playlist_id = r.playlist_id := by
  rw [moveShiftUp]
  split <;> exact ⟨rfl, rfl⟩

/-- The position column after `moveShiftUp`. -/
theorem moveShiftUp_position (pl0 : Nat) (qc k : Int) (r : PlaylistItem) :
    (moveShiftUp pl0 qc k r).position =
      if r.playlist_id = pl0 ∧ qc ≤ r.position ∧ r.position < k
      then r.position + 1 else r.position := by
  rw [moveShiftUp]
  split
  · next h =>
    simp only [Bool.and_eq_true, beq_iff_eq, decide_eq_true_eq] at h
    rw [if_pos ⟨h.1.1, h.1.2, h.2⟩]
  · next h =>
    simp only [Bool.and_eq_true, beq_iff_eq, decide_eq_true_eq, not_and] at h
    rw [if_neg (fun hc => h ⟨hc.1, hc.2.1⟩ hc.2.2)]

/-- `moveShiftDown` keeps id and playlist. -/
theorem moveShiftDown_id (pl0 : Nat) (k qc : Int) (r : PlaylistItem) :
    (moveShiftDown pl0 k qc r).id = r.id ∧
    (moveShiftDown pl0 k qc r).playlist_id = r.playlist_id := by
  rw [moveShiftDown]
  split <;> exact ⟨rfl, rfl⟩

/-- The position column after `moveShiftDown`. -/
theorem moveShiftDown_position (pl0 : Nat) (k qc : Int) (r : PlaylistItem) :
    (moveShiftDown pl0 k qc r).position =
      if r.playlist_id = pl0 ∧ k < r.position ∧ r.position ≤ qc
      then r.position - 1 else r.position := by
  rw [moveShiftDown]
  split
  · next h =>
    simp only [Bool.and_eq_true, beq_iff_eq, decide_eq_true_eq] at h
    rw [if_pos ⟨h.1.1, h.1.2, h.2⟩]
  · next h =>
    simp only [Bool.and_eq_true, beq_iff_eq, decide_eq_true_eq, not_and] at h
    rw [if_neg (fun hc => h ⟨hc.1, hc.2.1⟩ hc.2.2)]

/-- Playlist projection of `moveShiftUp`, as a rewrite rule. -/
theorem moveShiftUp_playlist (pl0 : Nat) (qc k : Int) (r : PlaylistItem) :
    (moveShiftUp pl0 qc k r).playlist_id = r.playlist_id :=
  (moveShiftUp_id pl0 qc k r).2

/-- Playlist projection of `moveShiftDown`, as a rewrite rule. -/
theorem moveShiftDown_playlist (pl0 : Nat) (k qc : Int) (r : PlaylistItem) :
    (moveShiftDown pl0 k qc r).playlist_id = r.playlist_id :=
  (moveShiftDown_id pl0 k qc r).2

/-- `movePlace` keeps id and playlist. -/
theorem movePlace_id (id0 : Nat) (qc : Int) (r : PlaylistItem) :
    (movePlace id0 qc r).id = r.id ∧
    (movePlace id0 qc r).playlist_id = r.playlist_id := by
  rw [movePlace]
  split <;> exact ⟨rfl, rfl⟩

/-- The position column after `movePlace`. -/
theorem movePlace_position (id0 : Nat) (qc : Int) (r : PlaylistItem) :
    (movePlace id0 qc r).position = if r.id = id0 then qc else r.position := by
  rw [movePlace]
  split
  · next h => rw [if_pos (by simpa using h)]
  · next h => rw [if_neg (by simpa using h)]

/-- Shifting up then placing preserves the invariant counts of every
playlist, for a move to an earlier position. -/
theorem count_moveUpShape (l : List PlaylistItem) (item : PlaylistItem)
    (pid : Nat) (qc : Int)
    (hnodup : (l.map (fun x => x.id)).Nodup) (hitem : item ∈ l)
    (hcount : ∀ q : Int, posCount l pid q =
      if 1 ≤ q ∧ q ≤ (pidCount l pid : Int) then 1 else 0)
    (hqk : qc < item.position)
    (hb : item.playlist_id = pid → 1 ≤ qc ∧ qc ≤ (pidCount l pid : Int)) :
    ∀ t : Int,
      posCount ((l.map (moveShiftUp item.playlist_id qc item.position)).map
        (movePlace item.id qc)) pid t =
      if 1 ≤ t ∧ t ≤
        (pidCount ((l.map (moveShiftUp item.playlist_id qc item.position)).map
          (movePlace item.id qc)) pid : Int) then 1 else 0 := by
  intro t
  set shiftF := moveShiftUp item.playlist_id qc item.position with hshiftF
  set lShift := l.map shiftF with hlShift
  have hpidShift : pidCount lShift pid = pidCount l pid := by
    rw [hlShift, pidCount, List.countP_map, pidCount]
    refine countP_congr_eq _ _ _ (fun r _ => ?_)
    simp only [Function.comp_apply, hshiftF]
    rw [show ((moveShiftUp item.playlist_id qc item.position r).playlist_id == pid)
      = (r.playlist_id == pid) from by rw [(moveShiftUp_id _ _ _ r).2]]
  have hpidNew : pidCount (lShift.map (movePlace item.id qc)) pid =
      pidCount l pid := by
    rw [pidCount, List.countP_map, ← hpidShift, pidCount]
    refine countP_congr_eq _ _ _ (fun r _ => ?_)
    simp only [Function.comp_apply]
    rw [show ((movePlace item.id qc r).playlist_id == pid)
      = (r.playlist_id == pid) from by rw [(movePlace_id _ _ r).2]]
  have hidsShift : (lShift.map (fun x => x.id)).Nodup := by
    rw [hlShift, List.map_map]
    have : ((fun x : PlaylistItem => x.id) ∘ shiftF) = fun x => x.id := by
      funext r
      simp only [Function.comp_apply, hshiftF]
      exact (moveShiftUp_id _ _ _ r).1
    rw [this]
    exact hnodup
  have hshiftitem : shiftF item = item := by
    rw [hshiftF, moveShiftUp, if_neg]
    simp only [Bool.and_eq_true, beq_iff_eq, decide_eq_true_eq, not_and]
    intro _ h2
    omega
  have hitemShift : item ∈ lShift := by
    rw [hlShift, ← hshiftitem]
    exact List.mem_map_of_mem shiftF hitem
  -- split off the moved row on both lists
  have hsplitNew : posCount (lShift.map (movePlace item.id qc)) pid t =
      (if item.playlist_id = pid ∧ qc = t then 1 else 0) +
        lShift.countP (fun r =>
          (r.playlist_id == pid && r.position == t) && !(r.id == item.id)) := by
    rw [posCount, List.countP_map]
    rw [countP_split_pred lShift _ (fun r => r.id == item.id)]
    congr 1
    · rw [countP_congr_eq lShift _
        (fun r => (r.id == item.id) &&
          ((movePlace item.id qc r).playlist_id == pid &&
            (movePlace item.id qc r).position == t))
        (fun r _ => by simp only [Function.comp_apply]; rw [Bool.and_comm])]
      rw [countP_id_unique lShift item hidsShift hitemShift]
      have hpp : (movePlace item.id qc item).playlist_id = item.playlist_id :=
        (movePlace_id _ _ _).2
      have hpos : (movePlace item.id qc item).position = qc := by
        rw [movePlace_position, if_pos rfl]
      by_cases h : item.playlist_id = pid ∧ qc = t
      · have hcnd : ((movePlace item.id qc item).playlist_id == pid &&
            (movePlace item.id qc item).position == t) = true := by
          rw [hpp, hpos]
          simp only [Bool.and_eq_true, beq_iff_eq]
          exact ⟨h.1, h.2⟩
        rw [if_pos h, if_pos hcnd]
      · rw [if_neg h, if_neg]
        intro hc
        simp only [Bool.and_eq_true, beq_iff_eq, hpp, hpos] at hc
        exact h hc
    · refine countP_congr_eq _ _ _ (fun r _ => ?_)
      simp only [Function.comp_apply]
      cases hid : r.id == item.id
      · have hplace : movePlace item.id qc r = r := by
          rw [movePlace, if_neg (by simp_all)]
        rw [hplace]
      · simp
  have hsplitShift : posCount lShift pid t =
      (if item.playlist_id = pid ∧ item.position = t then 1 else 0) +
        lShift.countP (fun r =>
          (r.playlist_id == pid && r.position == t) && !(r.id == item.id)) := by
    rw [posCount, countP_split_pred lShift _ (fun r => r.id == item.id)]
    congr 1
    rw [countP_congr_eq lShift _
      (fun r => (r.id == item.id) &&
        (r.playlist_id == pid && r.position == t))
      (fun r _ => by rw [Bool.and_comm])]

    rw [countP_id_unique lShift item hidsShift hitemShift]
    by_cases h : item.playlist_id = pid ∧ item.position = t
    · rw [if_pos h, if_pos (by simp [h.1, h.2])]
    · rw [if_neg h, if_neg]
      intro hc
      simp only [Bool.and_eq_true, beq_iff_eq] at hc
      exact h hc
  by_cases hpl : item.playlist_id = pid
  · have hkN := pos_bound_of_count l pid hcount item hitem hpl
    have hq := hb hpl
    set N := pidCount l pid with hN
    have hcount1 : posCount lShift pid t =
        (if qc ≤ t - 1 ∧ t - 1 < item.position
          then posCount l pid (t - 1) else 0) +
        (if ¬(qc ≤ t ∧ t < item.position)
          then posCount l pid t else 0) := by
      rw [hlShift, posCount, List.countP_map]
      rw [countP_congr_eq l _
        (fun r => ((r.playlist_id == pid && r.position == t - 1) &&
            decide (qc ≤ t - 1 ∧ t - 1 < item.position)) ||
          ((r.playlist_id == pid && r.position == t) &&
            decide (¬(qc ≤ t ∧ t < item.position))))
        (fun r _ => ?_)]
      · rw [countP_or_disjoint _ _ _ (fun r _ => ?_), countP_and_const,
          countP_and_const]
        · congr 1 <;> split_ifs with h1 <;>
            simp only [decide_eq_true_eq] at * <;> first | rfl | (exact absurd h1 (by assumption)) | (exact absurd (by assumption) h1)
        · intro hc
          obtain ⟨hc1, hc2⟩ := hc
          simp only [Bool.and_eq_true, beq_iff_eq, decide_eq_true_eq] at hc1 hc2
          omega
      · simp only [Function.comp_apply, hshiftF]
        refine Bool.eq_iff_iff.mpr ?_
        simp only [Bool.and_eq_true, Bool.or_eq_true, beq_iff_eq,
          decide_eq_true_eq, moveShiftUp_playlist, moveShiftUp_position, hpl]
        by_cases h1 : r.playlist_id = pid
        · simp only [h1, eq_self_iff_true, true_and]
          split_ifs <;> constructor <;> intro <;> omega
        · simp [h1]
    rw [hsplitNew]
    have hx := hsplitShift
    rw [hcount1, hcount (t - 1), hcount t] at hx
    have he : (if item.playlist_id = pid ∧ item.position = t then 1 else 0) =
        (if item.position = t then 1 else 0) := by
      by_cases h : item.position = t
      · rw [if_pos ⟨hpl, h⟩, if_pos h]
      · rw [if_neg (fun hc => h hc.2), if_neg h]
    have he2 : (if item.playlist_id = pid ∧ qc = t then 1 else 0) =
        (if qc = t then 1 else 0) := by
      by_cases h : qc = t
      · rw [if_pos ⟨hpl, h⟩, if_pos h]
      · rw [if_neg (fun hc => h hc.2), if_neg h]
    rw [he] at hx
    rw [he2]
    split_ifs at hx ⊢ <;> omega
  · have hcount1 : posCount lShift pid t = posCount l pid t := by
      rw [hlShift, posCount, List.countP_map, posCount]
      refine countP_congr_eq _ _ _ (fun r _ => ?_)
      simp only [Function.comp_apply, hshiftF]
      refine Bool.eq_iff_iff.mpr ?_
      simp only [Bool.and_eq_true, beq_iff_eq, moveShiftUp_playlist,
        moveShiftUp_position]
      by_cases h1 : r.playlist_id = pid
      · have hne : ¬(r.playlist_id = item.playlist_id ∧ qc ≤ r.position ∧
            r.position < item.position) := by
          intro hc
          exact hpl (by rw [← hc.1]; exact h1)
        rw [if_neg hne]
      · simp [h1]
    rw [hsplitNew, hpidNew]
    have hx := hsplitShift
    rw [hcount1, hcount t] at hx
    rw [if_neg (fun hc : _ ∧ _ => hpl hc.1)] at hsplitNew ⊢
    rw [if_neg (fun hc : _ ∧ _ => hpl hc.1)] at hx
    split_ifs at hx ⊢ <;> omega

/-- Shifting down then placing preserves the invariant counts of every
playlist, for a move to a later position. -/
theorem count_moveDownShape (l : List PlaylistItem) (item : PlaylistItem)
    (pid : Nat) (qc : Int)
    (hnodup : (l.map (fun x => x.id)).Nodup) (hitem : item ∈ l)
    (hcount : ∀ q : Int, posCount l pid q =
      if 1 ≤ q ∧ q ≤ (pidCount l pid : Int) then 1 else 0)
    (hqk : item.position < qc)
    (hb : item.playlist_id = pid → 1 ≤ qc ∧ qc ≤ (pidCount l pid : Int)) :
    ∀ t : Int,
      posCount ((l.map (moveShiftDown item.playlist_id item.position qc)).map
        (movePlace item.id qc)) pid t =
      if 1 ≤ t ∧ t ≤
        (pidCount ((l.map (moveShiftDown item.playlist_id item.position qc)).map
          (movePlace item.id qc)) pid : Int) then 1 else 0 := by
  intro t
  set shiftF := moveShiftDown item.playlist_id item.position qc with hshiftF
  set lShift := l.map shiftF with hlShift
  have hpidShift : pidCount lShift pid = pidCount l pid := by
    rw [hlShift, pidCount, List.countP_map, pidCount]
    refine countP_congr_eq _ _ _ (fun r _ => ?_)
    simp only [Function.comp_apply, hshiftF]
    rw [show ((moveShiftDown item.playlist_id item.position qc r).playlist_id == pid)
      = (r.playlist_id == pid) from by rw [(moveShiftDown_id _ _ _ r).2]]
  have hpidNew : pidCount (lShift.map (movePlace item.id qc)) pid =
      pidCount l pid := by
    rw [pidCount, List.countP_map, ← hpidShift, pidCount]
    refine countP_congr_eq _ _ _ (fun r _ => ?_)
    simp only [Function.comp_apply]
    rw [show ((movePlace item.id qc r).playlist_id == pid)
      = (r.playlist_id == pid) from by rw [(movePlace_id _ _ r).2]]
  have hidsShift : (lShift.map (fun x => x.id)).Nodup := by
    rw [hlShift, List.map_map]
    have : ((fun x : PlaylistItem => x.id) ∘ shiftF) = fun x => x.id := by
      funext r
      simp only [Function.comp_apply, hshiftF]
      exact (moveShiftDown_id _ _ _ r).1
    rw [this]
    exact hnodup
  have hshiftitem : shiftF item = item := by
    rw [hshiftF, moveShiftDown, if_neg]
    simp only [Bool.and_eq_true, beq_iff_eq, decide_eq_true_eq, not_and]
    intro _ h2
    omega
  have hitemShift : item ∈ lShift := by
    rw [hlShift, ← hshiftitem]
    exact List.mem_map_of_mem shiftF hitem
  -- split off the moved row on both lists
  have hsplitNew : posCount (lShift.map (movePlace item.id qc)) pid t =
      (if item.playlist_id = pid ∧ qc = t then 1 else 0) +
        lShift.countP (fun r =>
          (r.playlist_id == pid && r.position == t) && !(r.id == item.id)) := by
    rw [posCount, List.countP_map]
    rw [countP_split_pred lShift _ (fun r => r.id == item.id)]
    congr 1
    · rw [countP_congr_eq lShift _
        (fun r => (r.id == item.id) &&
          ((movePlace item.id qc r).playlist_id == pid &&
            (movePlace item.id qc r).position == t))
        (fun r _ => by simp only [Function.comp_apply]; rw [Bool.and_comm])]
      rw [countP_id_unique lShift item hidsShift hitemShift]
      have hpp : (movePlace item.id qc item).playlist_id = item.playlist_id :=
        (movePlace_id _ _ _).2
      have hpos : (movePlace item.id qc item).position = qc := by
        rw [movePlace_position, if_pos rfl]
      by_cases h : item.playlist_id = pid ∧ qc = t
      · have hcnd : ((movePlace item.id qc item).playlist_id == pid &&
            (movePlace item.id qc item).position == t) = true := by
          rw [hpp, hpos]
          simp only [Bool.and_eq_true, beq_iff_eq]
          exact ⟨h.1, h.2⟩
        rw [if_pos h, if_pos hcnd]
      · rw [if_neg h, if_neg]
        intro hc
        simp only [Bool.and_eq_true, beq_iff_eq, hpp, hpos] at hc
        exact h hc
    · refine countP_congr_eq _ _ _ (fun r _ => ?_)
      simp only [Function.comp_apply]
      cases hid : r.id == item.id
      · have hplace : movePlace item.id qc r = r := by
          rw [movePlace, if_neg (by simp_all)]
        rw [hplace]
      · simp
  have hsplitShift : posCount lShift pid t =
      (if item.playlist_id = pid ∧ item.position = t then 1 else 0) +
        lShift.countP (fun r =>
          (r.playlist_id == pid && r.position == t) && !(r.id == item.id)) := by
    rw [posCount, countP_split_pred lShift _ (fun r => r.id == item.id)]
    congr 1
    rw [countP_congr_eq lShift _
      (fun r => (r.id == item.id) &&
        (r.playlist_id == pid && r.position == t))
      (fun r _ => by rw [Bool.and_comm])]

    rw [countP_id_unique lShift item hidsShift hitemShift]
    by_cases h : item.playlist_id = pid ∧ item.position = t
    · rw [if_pos h, if_pos (by simp [h.1, h.2])]
    · rw [if_neg h, if_neg]
      intro hc
      simp only [Bool.and_eq_true, beq_iff_eq] at hc
      exact h hc
  by_cases hpl : item.playlist_id = pid
  · have hkN := pos_bound_of_count l pid hcount item hitem hpl
    have hq := hb hpl
    set N := pidCount l pid with hN
    have hcount1 : posCount lShift pid t =
        (if item.position < t + 1 ∧ t + 1 ≤ qc
          then posCount l pid (t + 1) else 0) +
        (if ¬(item.position < t ∧ t ≤ qc)
          then posCount l pid t else 0) := by
      rw [hlShift, posCount, List.countP_map]
      rw [countP_congr_eq l _
        (fun r => ((r.playlist_id == pid && r.position == t + 1) &&
            decide (item.position < t + 1 ∧ t + 1 ≤ qc)) ||
          ((r.playlist_id == pid && r.position == t) &&
            decide (¬(item.position < t ∧ t ≤ qc))))
        (fun r _ => ?_)]
      · rw [countP_or_disjoint _ _ _ (fun r _ => ?_), countP_and_const,
          countP_and_const]
        · congr 1 <;> split_ifs with h1 <;>
            simp only [decide_eq_true_eq] at * <;> first | rfl | (exact absurd h1 (by assumption)) | (exact absurd (by assumption) h1)
        · intro hc
          obtain ⟨hc1, hc2⟩ := hc
          simp only [Bool.and_eq_true, beq_iff_eq, decide_eq_true_eq] at hc1 hc2
          omega
      · simp only [Function.comp_apply, hshiftF]
        refine Bool.eq_iff_iff.mpr ?_
        simp only [Bool.and_eq_true, Bool.or_eq_true, beq_iff_eq,
          decide_eq_true_eq, moveShiftDown_playlist, moveShiftDown_position, hpl]
        by_cases h1 : r.playlist_id = pid
        · simp only [h1, eq_self_iff_true, true_and]
          split_ifs <;> constructor <;> intro <;> omega
        · simp [h1]
    rw [hsplitNew]
    have hx := hsplitShift
    rw [hcount1, hcount (t + 1), hcount t] at hx
    have he : (if item.playlist_id = pid ∧ item.position = t then 1 else 0) =
        (if item.position = t then 1 else 0) := by
      by_cases h : item.position = t
      · rw [if_pos ⟨hpl, h⟩, if_pos h]
      · rw [if_neg (fun hc => h hc.2), if_neg h]
    have he2 : (if item.playlist_id = pid ∧ qc = t then 1 else 0) =
        (if qc = t then 1 else 0) := by
      by_cases h : qc = t
      · rw [if_pos ⟨hpl, h⟩, if_pos h]
      · rw [if_neg (fun hc => h hc.2), if_neg h]
    rw [he] at hx
    rw [he2]
    split_ifs at hx ⊢ <;> omega
  · have hcount1 : posCount lShift pid t = posCount l pid t := by
      rw [hlShift, posCount, List.countP_map, posCount]
      refine countP_congr_eq _ _ _ (fun r _ => ?_)
      simp only [Function.comp_apply, hshiftF]
      refine Bool.eq_iff_iff.mpr ?_
      simp only [Bool.and_eq_true, beq_iff_eq, moveShiftDown_playlist,
        moveShiftDown_position]
      by_cases h1 : r.playlist_id = pid
      · have hne : ¬(r.playlist_id = item.playlist_id ∧ item.position < r.position ∧
            r.position ≤ qc) := by
          intro hc
          exact hpl (by rw [← hc.1]; exact h1)
        rw [if_neg hne]
      · simp [h1]
    rw [hsplitNew, hpidNew]
    have hx := hsplitShift
    rw [hcount1, hcount t] at hx
    rw [if_neg (fun hc : _ ∧ _ => hpl hc.1)] at hsplitNew ⊢
    rw [if_neg (fun hc : _ ∧ _ => hpl hc.1)] at hx
    split_ifs at hx ⊢ <;> omega

/-- `updatePlaylistItemPosition` preserves the contiguity invariant of every
playlist. -/
theorem contig_updatePlaylistItemPosition (db : DB) (pid id : Nat)
    (newPosition : Int)
    (hnodup : (db.playlistItems.map (fun x => x.id)).Nodup)
    (hc : Contig db pid) :
    Contig (PlaylistModel.updatePlaylistItemPosition db id newPosition).2 pid := by
  cases hfind : db.playlistItems.find? (fun r => r.id == id) with
  | none =>
    have hsame : (PlaylistModel.updatePlaylistItemPosition db id newPosition).2
        = db := by
      unfold PlaylistModel.updatePlaylistItemPosition
      rw [hfind]
    rw [hsame]
    exact hc
  | some item =>
    have hitem := List.mem_of_find?_eq_some hfind
    have hid : item.id = id := by simpa using List.find?_some hfind
    set maxPos := PlaylistModel.maxPosition db item.playlist_id with hmaxPos
    set qc : Int := if newPosition < 1 then 1
      else if newPosition > maxPos then maxPos else newPosition with hqc
    have hb : item.playlist_id = pid →
        1 ≤ qc ∧ qc ≤ (pidCount db.playlistItems pid : Int) := by
      intro hpl
      have hcount := (contig_iff_count db pid).mp hc
      have hmaxN : maxPos = (pidCount db.playlistItems pid : Int) := by
        rw [hmaxPos, hpl]
        exact maxPosition_of_count db pid hcount
      have hkb := pos_bound_of_count db.playlistItems pid hcount item hitem hpl
      rw [hqc, hmaxN]
      split_ifs <;> omega
    set shiftL := db.playlistItems.map (fun r =>
      if qc < item.position then
        if r.playlist_id == item.playlist_id && qc ≤ r.position &&
            r.position < item.position then
          { r with position := r.position + 1 }
        else r
      else
        if r.playlist_id == item.playlist_id && item.position < r.position &&
            r.position ≤ qc then
          { r with position := r.position - 1 }
        else r) with hshiftL
    set placedL := shiftL.map (fun r =>
      if r.id == id then { r with position := qc } else r) with hplacedL
    have hrw : PlaylistModel.updatePlaylistItemPosition db id newPosition =
        (if qc == item.position then (true, db)
         else (true, { db with playlistItems := placedL })) := by
      unfold PlaylistModel.updatePlaylistItemPosition
      rw [hfind]
    by_cases heq : qc = item.position
    · rw [hrw, if_pos (beq_iff_eq.mpr heq)]
      exact hc
    · rw [hrw, if_neg (fun hcond => heq (by simpa using hcond))]
      by_cases hlt : qc < item.position
      · have hmap1 : shiftL =
            db.playlistItems.map (moveShiftUp item.playlist_id qc item.position) := by
          rw [hshiftL]
          refine List.map_congr_left (fun r _ => ?_)
          rw [if_pos hlt]
          rfl
        rw [contig_iff_count]
        intro t
        show posCount placedL pid t = _
        rw [hplacedL, hmap1, ← hid]
        exact count_moveUpShape db.playlistItems item pid qc hnodup hitem
          ((contig_iff_count db pid).mp hc) hlt hb t
      · have hgt : item.position < qc := by omega
        have hmap1 : shiftL =
            db.playlistItems.map (moveShiftDown item.playlist_id item.position qc) := by
          rw [hshiftL]
          refine List.map_congr_left (fun r _ => ?_)
          rw [if_neg hlt]
          rfl
        rw [contig_iff_count]
        intro t
        show posCount placedL pid t = _
        rw [hplacedL, hmap1, ← hid]
        exact count_moveDownShape db.playlistItems item pid qc hnodup hitem
          ((contig_iff_count db pid).mp hc) hgt hb t

/-- The playlist of the C2/C5 witnesses: playlist 1 with five items at
positions 1..5. -/
def fiveItemDB : DB :=
  ⟨[], [], [⟨1, "pl"⟩],
   [⟨1, 1, 10, 1⟩, ⟨2, 1, 11, 2⟩, ⟨3, 1, 12, 3⟩, ⟨4, 1, 13, 4⟩, ⟨5, 1, 14, 5⟩],
   6, 1⟩

/-- C2: on a playlist whose positions form exactly `{1..N}`, each of
`addPlaylistItem`, `removeItem`, `removePlaylistItem` and
`updatePlaylistItemPosition` leaves the positions forming exactly `{1..N'}`
for the new item count `N'` — no gaps, duplicates, or non-positive values. -/
theorem playlist_ops_preserve_contiguity (db : DB) (pid : Nat)
    (hnodup : (db.playlistItems.map (fun x => x.id)).Nodup)
    (hc : Contig db pid) :
    (∀ p0 afid : Nat, Contig (PlaylistModel.addPlaylistItem db p0 afid).2 pid) ∧
    (∀ id : Nat, Contig (PlaylistModel.removeItem db id).2 pid) ∧
    (∀ p0 afid : Nat,
      Contig (PlaylistModel.removePlaylistItem db p0 afid).2 pid) ∧
    (∀ (id : Nat) (q : Int),
      Contig (PlaylistModel.updatePlaylistItemPosition db id q).2 pid) :=
  ⟨fun p0 afid => contig_addPlaylistItem db pid p0 afid hc,
   fun id => contig_removeItem db pid id hnodup hc,
   fun p0 afid => contig_removePlaylistItem db pid p0 afid hnodup hc,
   fun id q => contig_updatePlaylistItemPosition db pid id q hnodup hc⟩

/-- Witness for C2 on the five-item playlist. -/
theorem playlist_ops_preserve_contiguity_witness :
    ((fiveItemDB.playlistItems.map (fun x => x.id)).Nodup ∧ Contig fiveItemDB 1) ∧
    ((∀ p0 afid : Nat,
        Contig (PlaylistModel.addPlaylistItem fiveItemDB p0 afid).2 1) ∧
     (∀ id : Nat, Contig (PlaylistModel.removeItem fiveItemDB id).2 1) ∧
     (∀ p0 afid : Nat,
        Contig (PlaylistModel.removePlaylistItem fiveItemDB p0 afid).2 1) ∧
     (∀ (id : Nat) (q : Int),
        Contig (PlaylistModel.updatePlaylistItemPosition fiveItemDB id q).2 1)) :=
  ⟨⟨by decide, by decide⟩,
   playlist_ops_preserve_contiguity fiveItemDB 1 (by decide) (by decide)⟩

/-- The clamp of the requested position into `[1, N]`, as the spec phrases
the bound (the code clamps to `MAX(position)`, which equals `N` under the
invariant). -/
def clampPos (q N : Int) : Int :=
  if q < 1 then 1 else if q > N then N else q

/-- C5: `updatePlaylistItemPosition` returns `false` on an unknown id and
otherwise clamps the request into `[1, N]`; an unchanged clamped position is
a no-op success; moving earlier increments every same-playlist row in
`[q, p)` and sets the moved row to `q`; moving later decrements every
same-playlist row in `(p, q]` and sets the moved row to `q`. -/
theorem updatePlaylistItemPosition_semantics (db : DB) (id : Nat) (q : Int)
    (hnodup : (db.playlistItems.map (fun x => x.id)).Nodup) :
    (db.playlistItems.find? (fun r => r.id == id) = none →
      PlaylistModel.updatePlaylistItemPosition db id q = (false, db)) ∧
    (∀ item : PlaylistItem,
      db.playlistItems.find? (fun r => r.id == id) = some item →
      Contig db item.playlist_id →
      (clampPos q (pidCount db.playlistItems item.playlist_id : Int) =
          item.position →
        PlaylistModel.updatePlaylistItemPosition db id q = (true, db)) ∧
      (clampPos q (pidCount db.playlistItems item.playlist_id : Int) <
          item.position →
        PlaylistModel.updatePlaylistItemPosition db id q =
          (true, { db with playlistItems := db.playlistItems.map (fun r =>
            if r.id = item.id then
              { r with position :=
                  clampPos q (pidCount db.playlistItems item.playlist_id : Int) }
            else if r.playlist_id = item.playlist_id ∧
                clampPos q (pidCount db.playlistItems item.playlist_id : Int) ≤
                  r.position ∧
                r.position < item.position then
              { r with position := r.position + 1 }
            else r) })) ∧
      (item.position <
          clampPos q (pidCount db.playlistItems item.playlist_id : Int) →
        PlaylistModel.updatePlaylistItemPosition db id q =
          (true, { db with playlistItems := db.playlistItems.map (fun r =>
            if r.id = item.id then
              { r with position :=
                  clampPos q (pidCount db.playlistItems item.playlist_id : Int) }
            else if r.playlist_id = item.playlist_id ∧
                item.position < r.position ∧
                r.position ≤
                  clampPos q (pidCount db.playlistItems item.playlist_id : Int)
              then { r with position := r.position - 1 }
            else r) }))) := by
  constructor
  · intro hnone
    unfold PlaylistModel.updatePlaylistItemPosition
    rw [hnone]
  · intro item hfind hc
    have hitem := List.mem_of_find?_eq_some hfind
    have hid : item.id = id := by simpa using List.find?_some hfind
    have hcount := (contig_iff_count db item.playlist_id).mp hc
    set N := pidCount db.playlistItems item.playlist_id with hN
    have hmaxN : PlaylistModel.maxPosition db item.playlist_id = (N : Int) :=
      maxPosition_of_count db item.playlist_id hcount
    have hclamp :
        (if q < 1 then 1
         else if q > PlaylistModel.maxPosition db item.playlist_id then
           PlaylistModel.maxPosition db item.playlist_id
         else q) = clampPos q (N : Int) := by
      rw [hmaxN, clampPos]
    set shiftL := db.playlistItems.map (fun r =>
      if clampPos q (N : Int) < item.position then
        if r.playlist_id == item.playlist_id &&
            clampPos q (N : Int) ≤ r.position &&
            r.position < item.position then
          { r with position := r.position + 1 }
        else r
      else
        if r.playlist_id == item.playlist_id && item.position < r.position &&
            r.position ≤ clampPos q (N : Int) then
          { r with position := r.position - 1 }
        else r) with hshiftL
    set placedL := shiftL.map (fun r =>
      if r.id == id then { r with position := clampPos q (N : Int) } else r)
      with hplacedL
    have hrw : PlaylistModel.updatePlaylistItemPosition db id q =
        (if clampPos q (N : Int) == item.position then (true, db)
         else (true, { db with playlistItems := placedL })) := by
      unfold PlaylistModel.updatePlaylistItemPosition
      rw [hfind]
      simp only [hclamp]
    refine ⟨?_, ?_, ?_⟩
    · intro heq
      rw [hrw, if_pos (beq_iff_eq.mpr heq)]
    · intro hlt
      have hne : ¬((clampPos q (N : Int) == item.position) = true) := by
        simp only [beq_iff_eq]
        omega
      rw [hrw, if_neg hne]
      congr 2
      rw [hplacedL, hshiftL, List.map_map]
      refine List.map_congr_left (fun r hr => ?_)
      simp only [Function.comp_apply]
      by_cases hidr : r.id = item.id
      · have hreq : r = item := eq_of_mem_of_id_eq db.playlistItems item r
          hnodup hitem hr hidr
        subst hreq
        have hc1 : ¬((r.playlist_id == r.playlist_id &&
            decide (clampPos q (N : Int) ≤ r.position) &&
            decide (r.position < r.position)) = true) := by
          simp
        rw [if_pos hlt, if_neg hc1, if_pos (show (r.id == id) = true by
          simp [hid]), if_pos rfl]
      · have hplace : ∀ s : PlaylistItem, s.id = r.id →
            (if s.id == id then { s with position := clampPos q (N : Int) }
             else s) = s := by
          intro s hs
          rw [if_neg (by simp [hs, ← hid, hidr])]
        rw [if_pos hlt]
        by_cases hcond : r.playlist_id = item.playlist_id ∧
            clampPos q (N : Int) ≤ r.position ∧ r.position < item.position
        · have hc1 : (r.playlist_id == item.playlist_id &&
              decide (clampPos q (N : Int) ≤ r.position) &&
              decide (r.position < item.position)) = true := by
            simp only [Bool.and_eq_true, beq_iff_eq, decide_eq_true_eq]
            exact ⟨⟨hcond.1, hcond.2.1⟩, hcond.2.2⟩
          rw [if_pos hc1,
            hplace { r with position := r.position + 1 } rfl,
            if_neg hidr, if_pos hcond]
        · have hc1 : ¬((r.playlist_id == item.playlist_id &&
              decide (clampPos q (N : Int) ≤ r.position) &&
              decide (r.position < item.position)) = true) := by
            simp only [Bool.and_eq_true, beq_iff_eq, decide_eq_true_eq, not_and]
            intro h12 h3
            exact hcond ⟨h12.1, h12.2, h3⟩
          rw [if_neg hc1, hplace r rfl, if_neg hidr, if_neg hcond]
    · intro hgt
      have hne : ¬((clampPos q (N : Int) == item.position) = true) := by
        simp only [beq_iff_eq]
        omega
      have hnlt : ¬(clampPos q (N : Int) < item.position) := by omega
      rw [hrw, if_neg hne]
      congr 2
      rw [hplacedL, hshiftL, List.map_map]
      refine List.map_congr_left (fun r hr => ?_)
      simp only [Function.comp_apply]
      by_cases hidr : r.id = item.id
      · have hreq : r = item := eq_of_mem_of_id_eq db.playlistItems item r
          hnodup hitem hr hidr
        subst hreq
        have hc1 : ¬((r.playlist_id == r.playlist_id &&
            decide (r.position < r.position) &&
            decide (r.position ≤ clampPos q (N : Int))) = true) := by
          simp
        rw [if_neg hnlt, if_neg hc1, if_pos (show (r.id == id) = true by
          simp [hid]), if_pos rfl]
      · have hplace : ∀ s : PlaylistItem, s.id = r.id →
            (if s.id == id then { s with position := clampPos q (N : Int) }
             else s) = s := by
          intro s hs
          rw [if_neg (by simp [hs, ← hid, hidr])]
        rw [if_neg hnlt]
        by_cases hcond : r.playlist_id = item.playlist_id ∧
            item.position < r.position ∧ r.position ≤ clampPos q (N : Int)
        · have hc1 : (r.playlist_id == item.playlist_id &&
              decide (item.position < r.position) &&
              decide (r.position ≤ clampPos q (N : Int))) = true := by
            simp only [Bool.and_eq_true, beq_iff_eq, decide_eq_true_eq]
            exact ⟨⟨hcond.1, hcond.2.1⟩, hcond.2.2⟩
          rw [if_pos hc1,
            hplace { r with position := r.position - 1 } rfl,
            if_neg hidr, if_pos hcond]
        · have hc1 : ¬((r.playlist_id == item.playlist_id &&
              decide (item.position < r.position) &&
              decide (r.position ≤ clampPos q (N : Int))) = true) := by
            simp only [Bool.and_eq_true, beq_iff_eq, decide_eq_true_eq, not_and]
            intro h12 h3
            exact hcond ⟨h12.1, h12.2, h3⟩
          rw [if_neg hc1, hplace r rfl, if_neg hidr, if_neg hcond]

/-- Witness for C5: unknown id fails; moving the item at position 3 of the
five-item playlist to position 1 yields positions 2,3,1,4,5. -/
theorem updatePlaylistItemPosition_semantics_witness :
    ((fiveItemDB.playlistItems.map (fun x => x.id)).Nodup ∧
     fiveItemDB.playlistItems.find? (fun r => r.id == 9) = none ∧
     fiveItemDB.playlistItems.find? (fun r => r.id == 3) =
       some ⟨3, 1, 12, 3⟩ ∧
     Contig fiveItemDB 1 ∧
     clampPos 1 (pidCount fiveItemDB.playlistItems 1 : Int) < (3 : Int)) ∧
    PlaylistModel.updatePlaylistItemPosition fiveItemDB 9 7 =
      (false, fiveItemDB) ∧
    (PlaylistModel.updatePlaylistItemPosition fiveItemDB 3 1).1 = true ∧
    (PlaylistModel.updatePlaylistItemPosition fiveItemDB 3 1).2.playlistItems.map
      (fun r => (r.id, r.position)) =
      [(1, 2), (2, 3), (3, 1), (4, 4), (5, 5)] := by
  refine ⟨⟨by decide, by decide, by decide, by decide, by decide⟩, ?_, ?_, ?_⟩
  · exact (updatePlaylistItemPosition_semantics fiveItemDB 9 7 (by decide)).1
      (by decide)
  · have h := ((updatePlaylistItemPosition_semantics fiveItemDB 3 1
        (by decide)).2 ⟨3, 1, 12, 3⟩ (by decide) (by decide)).2.1 (by decide)
    rw [h]
  · have h := ((updatePlaylistItemPosition_semantics fiveItemDB 3 1
        (by decide)).2 ⟨3, 1, 12, 3⟩ (by decide) (by decide)).2.1 (by decide)
    rw [h]
    decide
